import Mathlib

/-
  Verification of `src/net/resources.js` (spf.net.resources): loading and
  unloading of external script/style resources.

  Shallow embedding: the live document is a state `St` holding a global node
  store (nodes survive detachment, as DOM nodes do), the ordered list of
  element node ids attached to the document head, the pubsub topic registry,
  a trace of invoked callback labels, and the pending `setTimeout` queue.
  Callbacks are opaque labels (`Nat`); invoking a callback appends its label
  to the trace.  External collaborators (spf.pubsub, spf.dom.dataset,
  spf.dom.query, spf.dom.createIframe, spf.string.hashCode) are not part of
  this file's source and are modelled from the spec, as marked.
-/

namespace SpfNetResources

abbrev NodeId := Nat

/-- The completion closure built inside `spf.net.resources.load`
(source lines 75-85).  It captures the created element (`elNode` stands for
the lexical `el` variable, which by the time the closure can run has been
reassigned to the element returned by `load_`), the pre-load snapshot
`elsToRemove`, and the pubsub topic `topic` (the derived resource id). -/
structure Hook where
  elNode : NodeId
  elsToRemove : List NodeId
  topic : String
deriving DecidableEq, Repr

/-- A DOM element.  `dataset` is the out-of-band marker store
(spf.dom.dataset); `onloadSet` records that `load_` installed the
`onload`/`onreadystatechange` handlers; `fn` is the completion function the
handlers close over (`null` when absent); `contentDoc` is the content
document of an iframe (ordered child list), empty for other elements. -/
structure Elem where
  tag : String
  id : String
  className : String
  rel : String
  src : String
  href : String
  dataAttr : String
  dataset : List (String × String)
  onloadSet : Bool
  fn : Option Hook
  contentDoc : List NodeId
deriving DecidableEq, Repr

/-- A task sitting in the `setTimeout` queue: either a deferred completion
function (`setTimeout(fn, 0)` in the element `onload` handler, source line
120) or the deferred prefetch work (source lines 239-260). -/
inductive Task where
  | hook : Hook → Task
  | prefetchWork : String → String → String → NodeId → Task
deriving DecidableEq, Repr

/-- The world state: global node store (association list from node id to
element; nodes are never deleted from the store, matching DOM nodes that
survive detachment), the main document's attached node ids in order, the
pubsub registry, the callback-invocation trace, the fresh node counter, and
the pending `setTimeout` queue. -/
structure St where
  nodes : List (NodeId × Elem)
  doc : List NodeId
  pubsub : List (String × List Nat)
  trace : List Nat
  nextNode : NodeId
  timeouts : List Task
deriving DecidableEq, Repr

def St.init : St :=
  { nodes := [], doc := [], pubsub := [], trace := [], nextNode := 0,
    timeouts := [] }

/-- Look up a node id in a node store. -/
def nodesFind (ns : List (NodeId × Elem)) (n : NodeId) : Option Elem :=
  (ns.find? (fun p => p.1 = n)).map Prod.snd

def lookupNode (st : St) (n : NodeId) : Option Elem :=
  nodesFind st.nodes n

/-- Apply `f` to the element stored under key `k`. -/
def nodesUpdate (ns : List (NodeId × Elem)) (k : NodeId) (f : Elem → Elem) :
    List (NodeId × Elem) :=
  ns.map (fun p => if p.1 = k then (p.1, f p.2) else p)

def updateNode (st : St) (k : NodeId) (f : Elem → Elem) : St :=
  { st with nodes := nodesUpdate st.nodes k f }

/-- Modelled from the spec: the Marker Store read
(`spf.dom.dataset.get(element, key)`): per-element out-of-band metadata. -/
def datasetGet (e : Elem) (k : String) : Option String :=
  (e.dataset.find? (fun p => p.1 = k)).map Prod.snd

/-- Modelled from the spec: the Marker Store write
(`spf.dom.dataset.set(element, key, value)`). -/
def datasetSet (e : Elem) (k v : String) : Elem :=
  { e with dataset := (k, v) :: e.dataset.filter (fun p => p.1 ≠ k) }

/-- JavaScript truthiness of an attribute read: present and non-empty. -/
def truthy : Option String → Bool
  | some v => v ≠ ""
  | none => false

/-- `el && spf.dom.dataset.get(el, 'loaded')` for the element stored at a
node id (source line 53). -/
def isLoadedNode (st : St) (n : NodeId) : Bool :=
  match lookupNode st n with
  | some e => truthy (datasetGet e "loaded")
  | none => false

/-- Whether the node's element carries the id attribute `s`. -/
def idPred (st : St) (s : String) (n : NodeId) : Bool :=
  match lookupNode st n with
  | some e => e.id = s
  | none => false

/-- `document.getElementById`: first attached element whose id attribute is
`s`. -/
def getElementById (st : St) (s : String) : Option NodeId :=
  st.doc.find? (idPred st s)

/-- `getElementById` on an iframe's content document (source line 233). -/
def contentGetById (st : St) (f : NodeId) (s : String) : Option NodeId :=
  match lookupNode st f with
  | some e => e.contentDoc.find? (idPred st s)
  | none => none

/-- Modelled from the spec: the Completion Notifier registration
`spf.pubsub.subscribe(topic, fn)`: append the callback to the topic's list,
preserving registration order. -/
def pubsubSubscribe (st : St) (topic : String) (c : Nat) : St :=
  { st with pubsub :=
      if st.pubsub.any (fun p => p.1 = topic) then
        st.pubsub.map (fun p => if p.1 = topic then (p.1, p.2 ++ [c]) else p)
      else
        st.pubsub ++ [(topic, [c])] }

/-- The callbacks currently registered under a topic, in registration
order. -/
def pubsubTopic (st : St) (topic : String) : List Nat :=
  ((st.pubsub.find? (fun p => p.1 = topic)).map Prod.snd).getD []

/-- Modelled from the spec: `spf.pubsub.publish(topic)` runs every callback
registered under the topic, in registration order (the orchestrator clears
the topic itself with the separate `clear` call). -/
def pubsubPublish (st : St) (topic : String) : St :=
  { st with trace := st.trace ++ pubsubTopic st topic }

/-- Modelled from the spec: `spf.pubsub.clear(topic)` drops the topic's
subscribers without running them. -/
def pubsubClear (st : St) (topic : String) : St :=
  { st with pubsub := st.pubsub.filter (fun p => p.1 ≠ topic) }

/-- Modelled from the spec: the Identifier hash `spf.string.hashCode`: a
deterministic 32-bit string hash, stable across calls. -/
def hashCode (s : String) : Nat :=
  s.data.foldl (fun a c => (a * 31 + c.toNat) % (2 ^ 32)) 0

/-- The derived Resource Identity: `type + '-' + spf.string.hashCode(url)`
(source line 50). -/
def resourceId (type url : String) : String :=
  type ++ "-" ++ toString (hashCode url)

/-- Whether the node matches the selector `tag + '.' + cls`. -/
def queryPred (st : St) (tag cls : String) (n : NodeId) : Bool :=
  match lookupNode st n with
  | some e => e.tag = tag && e.className = cls
  | none => false

/-- Modelled from the spec: the Element Query `spf.dom.query(tag + '.' +
cls)`: attached elements with the given tag whose class attribute is the
given name tag (elements created here carry a single class token). -/
def domQuery (st : St) (tag cls : String) : List NodeId :=
  st.doc.filter (queryPred st tag cls)

/-- Drop node `n` from an element's content document (the iframe side of a
detach). -/
def stripChild (n : NodeId) (e : Elem) : Elem :=
  { e with contentDoc := e.contentDoc.filter (fun m => m ≠ n) }

/-- `parentNode.removeChild(el)`: detach a node from the main document and
from any iframe content document; the node stays in the store. -/
def removeFromDoc (st : St) (n : NodeId) : St :=
  { st with
      doc := st.doc.filter (fun m => m ≠ n),
      nodes := st.nodes.map (fun p => (p.1, stripChild n p.2)) }

/-- One iteration of the `spf.net.resources.unload_` loop (source lines
186-189): clear the element's pubsub topic (its id attribute), then detach
it from its parent. -/
def unloadOne (st : St) (n : NodeId) : St :=
  let st1 :=
    match lookupNode st n with
    | some e => pubsubClear st e.id
    | none => st
  removeFromDoc st1 n

/-- `spf.net.resources.unload_(els)` (source lines 185-190). -/
def unloadList (st : St) (els : List NodeId) : St :=
  els.foldl unloadOne st

/-- The body of the completion closure created in `load` (source lines
76-84): if the element's `loaded` marker is still unset, set it, remove the
pre-load snapshot, publish the topic, and clear it; otherwise do nothing. -/
def loadCompleteHook (h : Hook) (st : St) : St :=
  if isLoadedNode st h.elNode then st
  else
    let st1 := updateNode st h.elNode (fun e => datasetSet e "loaded" "true")
    let st2 := unloadList st1 h.elsToRemove
    let st3 := pubsubPublish st2 h.topic
    pubsubClear st3 h.topic

/-- `targetEl.insertBefore(el, targetEl.firstChild)` into the main document
(`target = none`) or an iframe's content document (source line 148). -/
def insertFirstChild (target : Option NodeId) (n : NodeId) (st : St) : St :=
  match target with
  | none => { st with doc := n :: st.doc }
  | some f => updateNode st f (fun e => { e with contentDoc := n :: e.contentDoc })

/-- `targetEl.appendChild(el)` into the main document or an iframe's content
document (source line 151). -/
def appendLastChild (target : Option NodeId) (n : NodeId) (st : St) : St :=
  match target with
  | none => { st with doc := st.doc ++ [n] }
  | some f => updateNode st f (fun e => { e with contentDoc := e.contentDoc ++ [n] })

/-- `(type == 'js') ? 'script' : 'link'` (source lines 72 and 106). -/
def tagOf (type : String) : String :=
  if type = "js" then "script" else "link"

/-- The element created by `load_` (source lines 107-140): tag from the
type, id and class set before the locator attribute, `rel` for styles, the
`onload`/`onreadystatechange` handlers installed closing over `fn`, and the
locator (`src` for scripts, `href` for styles) set. -/
def mkResourceElem (type url id cls : String) (fn : Option Hook) : Elem :=
  { tag := tagOf type, id := id, className := cls,
    rel := if type = "css" then "stylesheet" else "",
    src := if type = "js" then url else "",
    href := if type = "js" then "" else url,
    dataAttr := "", dataset := [], onloadSet := true,
    fn := fn, contentDoc := [] }

/-- `spf.net.resources.load_` (source lines 102-154): create the element
and insert it: scripts as first child, styles appended.  The `fn` argument
is the completion closure; the caller's lexical capture of the created
element is realised by instantiating it with the new node id (`load` passes
`fun n => ⟨n, elsToRemove, id⟩`; `prefetch` passes `none`). -/
def loadInternal (type url id cls : String) (fn : Option (NodeId → Hook))
    (target : Option NodeId) (st : St) : Option NodeId × St :=
  if type ≠ "js" ∧ type ≠ "css" then (none, st)
  else
    let n := st.nextNode
    let e : Elem := mkResourceElem type url id cls (fn.map (fun g => g n))
    let st1 : St := { st with nodes := st.nodes ++ [(n, e)], nextNode := n + 1 }
    let st2 := if type = "js" then insertFirstChild target n st1
               else appendLastChild target n st1
    (some n, st2)

/-- `if (opt_callback) { opt_callback(); }` (source lines 57-59): invoke the
callback immediately when one was given. -/
def invokeOpt (st : St) (cb : Option Nat) : St :=
  match cb with
  | some c => { st with trace := st.trace ++ [c] }
  | none => st

/-- `if (opt_callback) { spf.pubsub.subscribe(id, opt_callback); }` (source
lines 63-65): register the callback when one was given. -/
def subscribeOpt (st : St) (topic : String) (cb : Option Nat) : St :=
  match cb with
  | some c => pubsubSubscribe st topic c
  | none => st

/-- `spf.net.resources.load` (source lines 46-87). -/
def load (type url : String) (cb : Option Nat) (name : Option String)
    (st : St) : Option NodeId × St :=
  if type ≠ "js" ∧ type ≠ "css" then (none, st)
  else
    let id := resourceId type url
    let cls := name.getD ""
    match getElementById st id with
    | some n =>
      if isLoadedNode st n then
        -- already loaded: execute the callback immediately
        (some n, invokeOpt st cb)
      else
        -- currently loading: register the callback and return
        (some n, subscribeOpt st id cb)
    | none =>
      let st1 := subscribeOpt st id cb
      let elsToRemove := if cls ≠ "" then domQuery st1 (tagOf type) cls else []
      loadInternal type url id cls (some (fun n => Hook.mk n elsToRemove id))
        none st1

/-- The element `onload` handler installed by `load_` (source lines
116-122): firing it defers the completion function to the `setTimeout`
queue (never runs it directly), to force asynchrony even when the engine
signals synchronously for cached resources. -/
def fireOnload (st : St) (n : NodeId) : St :=
  match lookupNode st n with
  | some e =>
    if e.onloadSet then
      match e.fn with
      | some h => { st with timeouts := st.timeouts ++ [Task.hook h] }
      | none => st
    else st
  | none => st

/-- The element `onreadystatechange` handler installed by `load_` (source
lines 127-133): on ready states 'loaded' or 'complete' it calls the
element's `onload`; other states do nothing. -/
def fireReadyStateChange (st : St) (n : NodeId) (readyState : String) : St :=
  match lookupNode st n with
  | some e =>
    if e.onloadSet then
      if readyState = "loaded" ∨ readyState = "complete" then fireOnload st n
      else st
    else st
  | none => st

/-- `spf.net.resources.unload` (source lines 167-176). -/
def unload (type url : String) (st : St) : St :=
  if type ≠ "js" ∧ type ≠ "css" then st
  else
    let id := resourceId type url
    match getElementById st id with
    | some n => unloadList st [n]
    | none => st

/-- `spf.net.resources.ignore` (source lines 200-206). -/
def ignore (type url : String) (st : St) : St :=
  if type ≠ "js" ∧ type ≠ "css" then st
  else pubsubClear st (resourceId type url)

/-- Modelled from the spec: the isolated browsing context factory
`spf.dom.createIframe(id)`: create a hidden iframe with the given id,
appended to the main document, with an empty content document. -/
def createIframe (st : St) (iframeId : String) : NodeId × St :=
  let n := st.nextNode
  let e : Elem :=
    { tag := "iframe", id := iframeId, className := "", rel := "", src := "",
      href := "", dataAttr := "", dataset := [], onloadSet := false,
      fn := none, contentDoc := [] }
  (n, { st with nodes := st.nodes ++ [(n, e)],
                doc := st.doc ++ [n],
                nextNode := n + 1 })

/-- The deferred prefetch work (the `setTimeout` closure, source lines
239-260), parametrised by the engine flag `spf.dom.IS_IE` (`ie`).  Scripts:
create an `<object>` carrying the id (and, outside IE, the url as its
`data` attribute; in IE an auxiliary detached `<script>` carries the url as
`src`) and append it to the iframe's content document.  Styles: reuse
`load_` targeting the iframe's content document, with no completion
function and no class. -/
def runPrefetchWork (ie : Bool) (type url id : String) (f : NodeId)
    (st : St) : St :=
  if type = "js" then
    let n := st.nextNode
    let objectEl : Elem :=
      { tag := "object", id := id, className := "", rel := "", src := "",
        href := "", dataAttr := if ie then "" else url, dataset := [],
        onloadSet := false, fn := none, contentDoc := [] }
    let st1 : St := { st with nodes := st.nodes ++ [(n, objectEl)],
                              nextNode := n + 1 }
    let st2 :=
      if ie then
        let scriptEl : Elem :=
          { tag := "script", id := "", className := "", rel := "",
            src := url, href := "", dataAttr := "", dataset := [],
            onloadSet := false, fn := none, contentDoc := [] }
        { st1 with nodes := st1.nodes ++ [(st1.nextNode, scriptEl)],
                   nextNode := st1.nextNode + 1 }
      else st1
    appendLastChild (some f) n st2
  else
    (loadInternal type url id "" none (some f) st).2

/-- `spf.net.resources.prefetch` (source lines 217-261). -/
def prefetch (type url : String) (st : St) : St :=
  if type ≠ "js" ∧ type ≠ "css" then st
  else
    let id := resourceId type url
    match getElementById st id with
    | some _ => st
    | none =>
      let iframeId := type ++ "-prefetch"
      match getElementById st iframeId with
      | none =>
        let p := createIframe st iframeId
        { p.2 with timeouts := p.2.timeouts ++ [Task.prefetchWork type url id p.1] }
      | some f =>
        match contentGetById st f id with
        | some _ => st
        | none =>
          { st with timeouts := st.timeouts ++ [Task.prefetchWork type url id f] }

/-- Run one queued `setTimeout` task. -/
def runTask (ie : Bool) (t : Task) (st : St) : St :=
  match t with
  | Task.hook h => loadCompleteHook h st
  | Task.prefetchWork type url id f => runPrefetchWork ie type url id f st

/-- Process the next scheduling tick: pop and run the first queued task. -/
def runNextTimeout (ie : Bool) (st : St) : St :=
  match st.timeouts with
  | [] => st
  | t :: ts => runTask ie t { st with timeouts := ts }

/-- The observable operations on the world: the module's public surface plus
the engine-driven events (load-completion signals and scheduler ticks). -/
inductive Op where
  | opLoad : String → String → Option Nat → Option String → Op
  | opUnload : String → String → Op
  | opIgnore : String → String → Op
  | opPrefetch : String → String → Op
  | opFireOnload : NodeId → Op
  | opFireReady : NodeId → String → Op
  | opTick : Bool → Op

def applyOp (o : Op) (st : St) : St :=
  match o with
  | Op.opLoad t u c m => (load t u c m st).2
  | Op.opUnload t u => unload t u st
  | Op.opIgnore t u => ignore t u st
  | Op.opPrefetch t u => prefetch t u st
  | Op.opFireOnload n => fireOnload st n
  | Op.opFireReady n s => fireReadyStateChange st n s
  | Op.opTick ie => runNextTimeout ie st

/-- Run a sequence of operations from the empty document. -/
def run (ops : List Op) : St :=
  ops.foldl (fun st o => applyOp o st) St.init

/-- The id attribute of the element attached at a node id (empty when the
node has no store entry). -/
def idOf (st : St) (n : NodeId) : String :=
  ((lookupNode st n).map Elem.id).getD ""

/-- The id attributes of the attached elements, in document order. -/
def docIds (st : St) : List String :=
  st.doc.map (fun n => idOf st n)

/-- Number of attached elements whose id attribute is `s`. -/
def countId (st : St) (s : String) : Nat :=
  (st.doc.filter (fun n => idOf st n = s)).length

/-- Well-formedness of the world: store keys are below the fresh counter and
distinct, attached nodes are below the fresh counter and have store entries,
and attached elements have pairwise distinct id attributes. -/
def WF (st : St) : Prop :=
  (∀ p ∈ st.nodes, p.1 < st.nextNode) ∧
  (st.nodes.map Prod.fst).Nodup ∧
  (∀ n ∈ st.doc, n < st.nextNode) ∧
  (∀ n ∈ st.doc, (lookupNode st n).isSome) ∧
  (docIds st).Nodup

instance (st : St) : Decidable (WF st) := by
  unfold WF
  infer_instance

/-! ### Node-store lemmas -/

@[simp]
theorem nodesFind_nil (n : NodeId) : nodesFind [] n = none := rfl

@[simp]
theorem nodesFind_cons (p : NodeId × Elem) (t : List (NodeId × Elem))
    (n : NodeId) :
    nodesFind (p :: t) n = if p.1 = n then some p.2 else nodesFind t n := by
  by_cases h : p.1 = n
  · simp [nodesFind, List.find?_cons_of_pos, h]
  · simp [nodesFind, List.find?_cons_of_neg, h]

theorem nodesFind_append (ns ms : List (NodeId × Elem)) (n : NodeId) :
    nodesFind (ns ++ ms) n = (nodesFind ns n).or (nodesFind ms n) := by
  induction ns with
  | nil => simp
  | cons p t ih =>
    by_cases h : p.1 = n <;> simp [h, ih]

theorem nodesFind_append_fresh (ns : List (NodeId × Elem)) (k : NodeId)
    (e : Elem) (h : ∀ p ∈ ns, p.1 ≠ k) :
    nodesFind (ns ++ [(k, e)]) k = some e := by
  rw [nodesFind_append]
  have h1 : nodesFind ns k = none := by
    induction ns with
    | nil => rfl
    | cons p t ih =>
      rw [nodesFind_cons, if_neg (h p (List.mem_cons_self p t))]
      exact ih (fun q hq => h q (List.mem_cons_of_mem p hq))
  simp [h1]

theorem nodesFind_append_ne (ns : List (NodeId × Elem)) (k m : NodeId)
    (e : Elem) (h : m ≠ k) :
    nodesFind (ns ++ [(k, e)]) m = nodesFind ns m := by
  rw [nodesFind_append]
  have h1 : nodesFind [(k, e)] m = none := by
    rw [nodesFind_cons]
    have hk : ¬ ((k, e).1 = m) := fun hc => h hc.symm
    simp [hk]
  rw [h1]
  cases nodesFind ns m <;> rfl

theorem nodesUpdate_cons (p : NodeId × Elem) (t : List (NodeId × Elem))
    (k : NodeId) (f : Elem → Elem) :
    nodesUpdate (p :: t) k f =
      (if p.1 = k then (p.1, f p.2) else p) :: nodesUpdate t k f := rfl

theorem nodesFind_update (ns : List (NodeId × Elem)) (k : NodeId)
    (f : Elem → Elem) (m : NodeId) :
    nodesFind (nodesUpdate ns k f) m =
      if m = k then (nodesFind ns k).map f else nodesFind ns m := by
  induction ns with
  | nil => simp [nodesUpdate]
  | cons p t ih =>
    rw [nodesUpdate_cons]
    by_cases hp : p.1 = k
    · rw [if_pos hp]
      by_cases hm : m = k
      · subst hm
        simp [hp, ih]
      · have hpm : ¬ p.1 = m := fun hc => hm (hc.symm.trans hp)
        simp [hpm, hm, ih]
    · rw [if_neg hp]
      by_cases hpm : p.1 = m
      · have hm : ¬ m = k := fun hc => hp (hpm.trans hc)
        simp [hpm, hm]
      · simp [hpm, hp, ih]

theorem nodesFind_mapElem (ns : List (NodeId × Elem)) (g : Elem → Elem)
    (m : NodeId) :
    nodesFind (ns.map (fun p => (p.1, g p.2))) m = (nodesFind ns m).map g := by
  induction ns with
  | nil => simp
  | cons p t ih =>
    by_cases hpm : p.1 = m <;> simp [hpm, ih]

theorem keys_nodesUpdate (ns : List (NodeId × Elem)) (k : NodeId)
    (f : Elem → Elem) :
    (nodesUpdate ns k f).map Prod.fst = ns.map Prod.fst := by
  induction ns with
  | nil => rfl
  | cons p t ih =>
    rw [nodesUpdate_cons]
    by_cases hp : p.1 = k <;> simp [hp, ih]

theorem keys_mapElem (ns : List (NodeId × Elem)) (g : Elem → Elem) :
    (ns.map (fun p => (p.1, g p.2))).map Prod.fst = ns.map Prod.fst := by
  induction ns with
  | nil => rfl
  | cons p t ih => simp [ih]

/-! ### State-level lookup lemmas -/

theorem lookupNode_updateNode (st : St) (k : NodeId) (f : Elem → Elem)
    (m : NodeId) :
    lookupNode (updateNode st k f) m =
      if m = k then (lookupNode st k).map f else lookupNode st m :=
  nodesFind_update st.nodes k f m

theorem lookupNode_removeFromDoc (st : St) (n m : NodeId) :
    lookupNode (removeFromDoc st n) m = (lookupNode st m).map (stripChild n) :=
  nodesFind_mapElem st.nodes (stripChild n) m

theorem idOf_updateNode (st : St) (k : NodeId) (f : Elem → Elem) (m : NodeId)
    (hid : ∀ e, (f e).id = e.id) :
    idOf (updateNode st k f) m = idOf st m := by
  unfold idOf
  rw [lookupNode_updateNode]
  by_cases hm : m = k
  · subst hm
    cases lookupNode st m <;> simp [hid]
  · simp [hm]

theorem idOf_removeFromDoc (st : St) (n m : NodeId) :
    idOf (removeFromDoc st n) m = idOf st m := by
  unfold idOf
  rw [lookupNode_removeFromDoc]
  cases lookupNode st m <;> rfl

theorem getElementById_eq_none (st : St) (s : String) :
    getElementById st s = none ↔
      ∀ n ∈ st.doc, ∀ e, lookupNode st n = some e → e.id ≠ s := by
  unfold getElementById
  rw [List.find?_eq_none]
  constructor
  · intro h n hn e he hes
    have hb := h n hn
    unfold idPred at hb
    rw [he] at hb
    simp [hes] at hb
  · intro h n hn
    unfold idPred
    cases hl : lookupNode st n with
    | none => simp
    | some e => simpa using h n hn e hl

theorem getElementById_eq_some (st : St) (s : String) (n : NodeId)
    (h : getElementById st s = some n) :
    n ∈ st.doc ∧ ∃ e, lookupNode st n = some e ∧ e.id = s := by
  unfold getElementById at h
  refine ⟨List.mem_of_find?_eq_some h, ?_⟩
  have hp := List.find?_some h
  unfold idPred at hp
  cases hl : lookupNode st n with
  | none => rw [hl] at hp; simp at hp
  | some e =>
    rw [hl] at hp
    exact ⟨e, rfl, by simpa using hp⟩

/-! ### Well-formedness preservation -/

theorem WF_of_eq (st st' : St) (hn : st'.nodes = st.nodes)
    (hd : st'.doc = st.doc) (hx : st'.nextNode = st.nextNode) (h : WF st) :
    WF st' := by
  unfold WF docIds idOf lookupNode at *
  rw [hn, hd, hx]
  exact h

theorem WF_pubsubSubscribe (st : St) (t : String) (c : Nat) (h : WF st) :
    WF (pubsubSubscribe st t c) :=
  WF_of_eq _ _ rfl rfl rfl h

theorem WF_pubsubPublish (st : St) (t : String) (h : WF st) :
    WF (pubsubPublish st t) :=
  WF_of_eq _ _ rfl rfl rfl h

theorem WF_pubsubClear (st : St) (t : String) (h : WF st) :
    WF (pubsubClear st t) :=
  WF_of_eq _ _ rfl rfl rfl h

theorem WF_updateNode (st : St) (k : NodeId) (f : Elem → Elem)
    (hid : ∀ e, (f e).id = e.id) (h : WF st) : WF (updateNode st k f) := by
  obtain ⟨h1, h2, h3, h4, h5⟩ := h
  refine ⟨?_, ?_, h3, ?_, ?_⟩
  · intro p hp
    simp only [updateNode, nodesUpdate, List.mem_map] at hp
    obtain ⟨q, hq, rfl⟩ := hp
    by_cases hqk : q.1 = k <;> simpa [hqk] using h1 q hq
  · show ((nodesUpdate st.nodes k f).map Prod.fst).Nodup
    rw [keys_nodesUpdate]
    exact h2
  · intro n hn
    have hn' : n ∈ st.doc := hn
    rw [lookupNode_updateNode]
    by_cases hnk : n = k
    · subst hnk
      rw [if_pos rfl, Option.isSome_map']
      exact h4 n hn'
    · rw [if_neg hnk]
      exact h4 n hn'
  · have he : docIds (updateNode st k f) = docIds st := by
      unfold docIds
      exact List.map_congr_left (fun n _ => idOf_updateNode st k f n hid)
    rw [he]
    exact h5

theorem WF_removeFromDoc (st : St) (n : NodeId) (h : WF st) :
    WF (removeFromDoc st n) := by
  obtain ⟨h1, h2, h3, h4, h5⟩ := h
  refine ⟨?_, ?_, ?_, ?_, ?_⟩
  · intro p hp
    simp only [removeFromDoc, List.mem_map] at hp
    obtain ⟨q, hq, rfl⟩ := hp
    simpa using h1 q hq
  · show ((st.nodes.map (fun p => (p.1, stripChild n p.2))).map Prod.fst).Nodup
    rw [keys_mapElem]
    exact h2
  · intro m hm
    exact h3 m (List.mem_of_mem_filter hm)
  · intro m hm
    rw [lookupNode_removeFromDoc, Option.isSome_map']
    exact h4 m (List.mem_of_mem_filter hm)
  · have he : docIds (removeFromDoc st n) =
        (st.doc.filter (fun m => m ≠ n)).map (fun m => idOf st m) := by
      unfold docIds
      exact List.map_congr_left (fun m _ => idOf_removeFromDoc st n m)
    rw [he]
    exact List.Nodup.sublist (List.Sublist.map _ (List.filter_sublist st.doc)) h5

theorem WF_unloadOne (st : St) (n : NodeId) (h : WF st) : WF (unloadOne st n) := by
  unfold unloadOne
  cases lookupNode st n with
  | none => exact WF_removeFromDoc _ _ h
  | some e => exact WF_removeFromDoc _ _ (WF_pubsubClear _ _ h)

theorem WF_unloadList (els : List NodeId) (st : St) (h : WF st) :
    WF (unloadList st els) := by
  induction els generalizing st with
  | nil => exact h
  | cons e t ih => exact ih _ (WF_unloadOne st e h)

theorem WF_loadCompleteHook (h : Hook) (st : St) (hWF : WF st) :
    WF (loadCompleteHook h st) := by
  unfold loadCompleteHook
  split
  · exact hWF
  · exact WF_pubsubClear _ _ (WF_pubsubPublish _ _
      (WF_unloadList _ _ (WF_updateNode _ _ _ (fun e => rfl) hWF)))

theorem notMem_docIds_of_getElementById_none (st : St) (s : String)
    (hWF : WF st) (h : getElementById st s = none) :
    ∀ m ∈ st.doc, idOf st m ≠ s := by
  intro m hm
  obtain ⟨_, _, _, h4, _⟩ := hWF
  have hs := h4 m hm
  cases hl : lookupNode st m with
  | none => rw [hl] at hs; simp at hs
  | some em =>
    have hne := (getElementById_eq_none st s).1 h m hm em hl
    unfold idOf
    rw [hl]
    simpa using hne

theorem WF_attach_cons (st : St) (e : Elem) (hWF : WF st)
    (hid : ∀ m ∈ st.doc, idOf st m ≠ e.id) :
    WF { st with nodes := st.nodes ++ [(st.nextNode, e)],
                 doc := st.nextNode :: st.doc,
                 nextNode := st.nextNode + 1 } := by
  obtain ⟨h1, h2, h3, h4, h5⟩ := hWF
  have hfresh : ∀ p ∈ st.nodes, p.1 ≠ st.nextNode :=
    fun p hp => Nat.ne_of_lt (h1 p hp)
  have hlookNew : nodesFind (st.nodes ++ [(st.nextNode, e)]) st.nextNode = some e :=
    nodesFind_append_fresh st.nodes st.nextNode e hfresh
  have hlookOld : ∀ m, m ≠ st.nextNode →
      nodesFind (st.nodes ++ [(st.nextNode, e)]) m = nodesFind st.nodes m :=
    fun m hm => nodesFind_append_ne st.nodes st.nextNode m e hm
  refine ⟨?_, ?_, ?_, ?_, ?_⟩
  · intro p hp
    rcases List.mem_append.1 hp with hp' | hp'
    · exact Nat.lt_succ_of_lt (h1 p hp')
    · simp only [List.mem_singleton] at hp'
      subst hp'
      exact Nat.lt_succ_self _
  · rw [List.map_append]
    rw [List.nodup_append]
    refine ⟨h2, List.nodup_singleton _, ?_⟩
    intro a ha hb
    simp only [List.map_cons, List.map_nil, List.mem_singleton] at hb
    subst hb
    obtain ⟨p, hp, hpa⟩ := List.mem_map.1 ha
    exact hfresh p hp hpa
  · intro n hn
    rcases List.mem_cons.1 hn with hn' | hn'
    · subst hn'
      exact Nat.lt_succ_self _
    · exact Nat.lt_succ_of_lt (h3 n hn')
  · intro n hn
    rcases List.mem_cons.1 hn with hn' | hn'
    · subst hn'
      show (nodesFind (st.nodes ++ [(st.nextNode, e)]) st.nextNode).isSome = true
      rw [hlookNew]
      rfl
    · show (nodesFind (st.nodes ++ [(st.nextNode, e)]) n).isSome = true
      rw [hlookOld n (Nat.ne_of_lt (h3 n hn'))]
      exact h4 n hn'
  · have hids : docIds { st with nodes := st.nodes ++ [(st.nextNode, e)],
                                 doc := st.nextNode :: st.doc,
                                 nextNode := st.nextNode + 1 } =
        e.id :: docIds st := by
      unfold docIds
      show (st.nextNode :: st.doc).map _ = _
      rw [List.map_cons]
      congr 1
      · unfold idOf lookupNode
        show ((nodesFind (st.nodes ++ [(st.nextNode, e)]) st.nextNode).map Elem.id).getD "" = e.id
        rw [hlookNew]
        rfl
      · refine List.map_congr_left (fun m hm => ?_)
        unfold idOf lookupNode
        show ((nodesFind (st.nodes ++ [(st.nextNode, e)]) m).map Elem.id).getD "" = _
        rw [hlookOld m (Nat.ne_of_lt (h3 m hm))]
    rw [hids]
    refine List.Nodup.cons ?_ h5
    intro hc
    obtain ⟨m, hm, hme⟩ := List.mem_map.1 hc
    exact hid m hm hme

theorem WF_attach_append (st : St) (e : Elem) (hWF : WF st)
    (hid : ∀ m ∈ st.doc, idOf st m ≠ e.id) :
    WF { st with nodes := st.nodes ++ [(st.nextNode, e)],
                 doc := st.doc ++ [st.nextNode],
                 nextNode := st.nextNode + 1 } := by
  obtain ⟨h1, h2, h3, h4, h5⟩ := hWF
  have hfresh : ∀ p ∈ st.nodes, p.1 ≠ st.nextNode :=
    fun p hp => Nat.ne_of_lt (h1 p hp)
  have hlookNew : nodesFind (st.nodes ++ [(st.nextNode, e)]) st.nextNode = some e :=
    nodesFind_append_fresh st.nodes st.nextNode e hfresh
  have hlookOld : ∀ m, m ≠ st.nextNode →
      nodesFind (st.nodes ++ [(st.nextNode, e)]) m = nodesFind st.nodes m :=
    fun m hm => nodesFind_append_ne st.nodes st.nextNode m e hm
  refine ⟨?_, ?_, ?_, ?_, ?_⟩
  · intro p hp
    rcases List.mem_append.1 hp with hp' | hp'
    · exact Nat.lt_succ_of_lt (h1 p hp')
    · simp only [List.mem_singleton] at hp'
      subst hp'
      exact Nat.lt_succ_self _
  · rw [List.map_append, List.nodup_append]
    refine ⟨h2, List.nodup_singleton _, ?_⟩
    intro a ha hb
    simp only [List.map_cons, List.map_nil, List.mem_singleton] at hb
    subst hb
    obtain ⟨p, hp, hpa⟩ := List.mem_map.1 ha
    exact hfresh p hp hpa
  · intro n hn
    rcases List.mem_append.1 hn with hn' | hn'
    · exact Nat.lt_succ_of_lt (h3 n hn')
    · simp only [List.mem_singleton] at hn'
      subst hn'
      exact Nat.lt_succ_self _
  · intro n hn
    rcases List.mem_append.1 hn with hn' | hn'
    · show (nodesFind (st.nodes ++ [(st.nextNode, e)]) n).isSome = true
      rw [hlookOld n (Nat.ne_of_lt (h3 n hn'))]
      exact h4 n hn'
    · simp only [List.mem_singleton] at hn'
      subst hn'
      show (nodesFind (st.nodes ++ [(st.nextNode, e)]) st.nextNode).isSome = true
      rw [hlookNew]
      rfl
  · have hids : docIds { st with nodes := st.nodes ++ [(st.nextNode, e)],
                                 doc := st.doc ++ [st.nextNode],
                                 nextNode := st.nextNode + 1 } =
        docIds st ++ [e.id] := by
      unfold docIds
      show (st.doc ++ [st.nextNode]).map _ = _
      rw [List.map_append]
      congr 1
      · refine List.map_congr_left (fun m hm => ?_)
        unfold idOf lookupNode
        show ((nodesFind (st.nodes ++ [(st.nextNode, e)]) m).map Elem.id).getD "" = _
        rw [hlookOld m (Nat.ne_of_lt (h3 m hm))]
      · rw [List.map_cons]
        unfold idOf lookupNode
        show (((nodesFind (st.nodes ++ [(st.nextNode, e)]) st.nextNode).map Elem.id).getD "") :: _ = _
        rw [hlookNew]
        rfl
    rw [hids, List.nodup_append]
    refine ⟨h5, List.nodup_singleton _, ?_⟩
    intro a ha hb
    simp only [List.mem_singleton] at hb
    subst hb
    obtain ⟨m, hm, hme⟩ := List.mem_map.1 ha
    exact hid m hm hme

theorem WF_append_detached (st : St) (e : Elem) (hWF : WF st) :
    WF { st with nodes := st.nodes ++ [(st.nextNode, e)],
                 nextNode := st.nextNode + 1 } := by
  obtain ⟨h1, h2, h3, h4, h5⟩ := hWF
  have hfresh : ∀ p ∈ st.nodes, p.1 ≠ st.nextNode :=
    fun p hp => Nat.ne_of_lt (h1 p hp)
  have hlookOld : ∀ m, m ≠ st.nextNode →
      nodesFind (st.nodes ++ [(st.nextNode, e)]) m = nodesFind st.nodes m :=
    fun m hm => nodesFind_append_ne st.nodes st.nextNode m e hm
  refine ⟨?_, ?_, ?_, ?_, ?_⟩
  · intro p hp
    rcases List.mem_append.1 hp with hp' | hp'
    · exact Nat.lt_succ_of_lt (h1 p hp')
    · simp only [List.mem_singleton] at hp'
      subst hp'
      exact Nat.lt_succ_self _
  · rw [List.map_append, List.nodup_append]
    refine ⟨h2, List.nodup_singleton _, ?_⟩
    intro a ha hb
    simp only [List.map_cons, List.map_nil, List.mem_singleton] at hb
    subst hb
    obtain ⟨p, hp, hpa⟩ := List.mem_map.1 ha
    exact hfresh p hp hpa
  · intro n hn
    exact Nat.lt_succ_of_lt (h3 n hn)
  · intro n hn
    show (nodesFind (st.nodes ++ [(st.nextNode, e)]) n).isSome = true
    rw [hlookOld n (Nat.ne_of_lt (h3 n hn))]
    exact h4 n hn
  · have hids : docIds { st with nodes := st.nodes ++ [(st.nextNode, e)],
                                 nextNode := st.nextNode + 1 } = docIds st := by
      unfold docIds
      refine List.map_congr_left (fun m hm => ?_)
      unfold idOf lookupNode
      show ((nodesFind (st.nodes ++ [(st.nextNode, e)]) m).map Elem.id).getD "" = _
      rw [hlookOld m (Nat.ne_of_lt (h3 m hm))]
    rw [hids]
    exact h5

theorem WF_loadInternal_main (type url id cls : String)
    (fn : Option (NodeId → Hook)) (st : St) (hWF : WF st)
    (hid : getElementById st id = none) :
    WF (loadInternal type url id cls fn none st).2 := by
  have hne := notMem_docIds_of_getElementById_none st id hWF hid
  unfold loadInternal
  split
  · exact hWF
  · dsimp only
    split
    · simp only [insertFirstChild]
      exact WF_attach_cons st _ hWF hne
    · simp only [appendLastChild]
      exact WF_attach_append st _ hWF hne

theorem WF_loadInternal_iframe (type url id cls : String)
    (fn : Option (NodeId → Hook)) (f : NodeId) (st : St) (hWF : WF st) :
    WF (loadInternal type url id cls fn (some f) st).2 := by
  unfold loadInternal
  split
  · exact hWF
  · dsimp only
    split
    · simp only [insertFirstChild]
      exact WF_updateNode _ f _ (fun e => rfl) (WF_append_detached st _ hWF)
    · simp only [appendLastChild]
      exact WF_updateNode _ f _ (fun e => rfl) (WF_append_detached st _ hWF)

theorem WF_load (t u : String) (cb : Option Nat) (nm : Option String)
    (st : St) (hWF : WF st) : WF (load t u cb nm st).2 := by
  unfold load
  split
  · exact hWF
  · dsimp only
    rcases hel : getElementById st (resourceId t u) with _ | n <;> dsimp only
    · cases cb with
      | none => exact WF_loadInternal_main _ _ _ _ _ _ hWF hel
      | some c =>
        exact WF_loadInternal_main _ _ _ _ _ _ (WF_pubsubSubscribe st _ c hWF) hel
    · split
      · cases cb with
        | none => exact hWF
        | some c => exact WF_of_eq _ _ rfl rfl rfl hWF
      · cases cb with
        | none => exact hWF
        | some c => exact WF_pubsubSubscribe st _ c hWF

theorem WF_unload (t u : String) (st : St) (hWF : WF st) : WF (unload t u st) := by
  unfold unload
  split
  · exact hWF
  · dsimp only
    rcases hel : getElementById st (resourceId t u) with _ | n <;> dsimp only
    · exact hWF
    · exact WF_unloadList [n] st hWF

theorem WF_ignore (t u : String) (st : St) (hWF : WF st) : WF (ignore t u st) := by
  unfold ignore
  split
  · exact hWF
  · exact WF_pubsubClear st _ hWF

theorem WF_fireOnload (st : St) (n : NodeId) (hWF : WF st) :
    WF (fireOnload st n) := by
  unfold fireOnload
  rcases hl : lookupNode st n with _ | e <;> dsimp only
  · exact hWF
  · split
    · rcases hf : e.fn with _ | h <;> dsimp only
      · exact hWF
      · exact WF_of_eq _ _ rfl rfl rfl hWF
    · exact hWF

theorem WF_fireReadyStateChange (st : St) (n : NodeId) (s : String)
    (hWF : WF st) : WF (fireReadyStateChange st n s) := by
  unfold fireReadyStateChange
  rcases hl : lookupNode st n with _ | e <;> dsimp only
  · exact hWF
  · split
    · split
      · exact WF_fireOnload st n hWF
      · exact hWF
    · exact hWF

theorem WF_runPrefetchWork (ie : Bool) (type url id : String) (f : NodeId)
    (st : St) (hWF : WF st) : WF (runPrefetchWork ie type url id f st) := by
  unfold runPrefetchWork
  split
  · dsimp only
    split
    · simp only [appendLastChild]
      exact WF_updateNode _ f _ (fun e => rfl)
        (WF_append_detached _ _ (WF_append_detached st _ hWF))
    · simp only [appendLastChild]
      exact WF_updateNode _ f _ (fun e => rfl) (WF_append_detached st _ hWF)
  · exact WF_loadInternal_iframe _ _ _ _ _ f st hWF

theorem WF_prefetch (t u : String) (st : St) (hWF : WF st) :
    WF (prefetch t u st) := by
  unfold prefetch
  split
  · exact hWF
  · dsimp only
    rcases hel : getElementById st (resourceId t u) with _ | n <;> dsimp only
    · rcases hif : getElementById st (t ++ "-prefetch") with _ | f <;> dsimp only
      · have hne := notMem_docIds_of_getElementById_none st (t ++ "-prefetch") hWF hif
        unfold createIframe
        dsimp only
        exact WF_of_eq _ _ rfl rfl rfl (WF_attach_append st _ hWF hne)
      · rcases hc : contentGetById st f (resourceId t u) with _ | m <;> dsimp only
        · exact WF_of_eq _ _ rfl rfl rfl hWF
        · exact hWF
    · exact hWF

theorem WF_runTask (ie : Bool) (t : Task) (st : St) (hWF : WF st) :
    WF (runTask ie t st) := by
  cases t with
  | hook h => exact WF_loadCompleteHook h st hWF
  | prefetchWork ty u i f => exact WF_runPrefetchWork ie ty u i f st hWF

theorem WF_runNextTimeout (ie : Bool) (st : St) (hWF : WF st) :
    WF (runNextTimeout ie st) := by
  unfold runNextTimeout
  rcases ht : st.timeouts with _ | ⟨t, ts⟩ <;> dsimp only
  · exact hWF
  · exact WF_runTask ie t _ (WF_of_eq _ _ rfl rfl rfl hWF)

theorem WF_applyOp (o : Op) (st : St) (hWF : WF st) : WF (applyOp o st) := by
  cases o with
  | opLoad t u c m => exact WF_load t u c m st hWF
  | opUnload t u => exact WF_unload t u st hWF
  | opIgnore t u => exact WF_ignore t u st hWF
  | opPrefetch t u => exact WF_prefetch t u st hWF
  | opFireOnload n => exact WF_fireOnload st n hWF
  | opFireReady n s => exact WF_fireReadyStateChange st n s hWF
  | opTick ie => exact WF_runNextTimeout ie st hWF

theorem WF_runAux (ops : List Op) (st : St) (hWF : WF st) :
    WF (ops.foldl (fun s o => applyOp o s) st) := by
  induction ops generalizing st with
  | nil => exact hWF
  | cons o t ih => exact ih _ (WF_applyOp o st hWF)

theorem WF_init : WF St.init := by decide

theorem WF_run (ops : List Op) : WF (run ops) :=
  WF_runAux ops St.init WF_init

theorem length_filter_map_nodup {α β : Type} [DecidableEq β] (l : List α)
    (f : α → β) (s : β) (h : (l.map f).Nodup) :
    (l.filter (fun x => f x = s)).length ≤ 1 := by
  induction l with
  | nil => simp
  | cons a t ih =>
    rw [List.map_cons] at h
    obtain ⟨ha, ht⟩ := List.nodup_cons.1 h
    by_cases hfa : f a = s
    · rw [List.filter_cons_of_pos (by simpa using hfa)]
      have hnil : t.filter (fun x => f x = s) = [] := by
        rw [List.filter_eq_nil_iff]
        intro x hx hfx
        have hfx' : f x = s := by simpa using hfx
        have hmem : f a ∈ List.map f t := by
          rw [hfa, ← hfx']
          exact List.mem_map_of_mem f hx
        exact ha hmem
      rw [hnil]
      simp
    · rw [List.filter_cons_of_neg (by simpa using hfa)]
      exact ih ht

theorem countId_le_one (st : St) (hWF : WF st) (s : String) :
    countId st s ≤ 1 := by
  obtain ⟨_, _, _, _, h5⟩ := hWF
  unfold countId
  unfold docIds at h5
  exact length_filter_map_nodup st.doc (fun n => idOf st n) s h5

/-- When an element for the Identity is already attached (loading or
loaded), `load` returns it and touches neither the node store, the
document, the fresh-node counter, nor the timeout queue: the Loader is not
re-invoked and no new request is scheduled. -/
theorem load_existing (t u : String) (cb : Option Nat) (nm : Option String)
    (st : St) (n : NodeId) (ht : t = "js" ∨ t = "css")
    (hel : getElementById st (resourceId t u) = some n) :
    (load t u cb nm st).1 = some n ∧
    (load t u cb nm st).2.nodes = st.nodes ∧
    (load t u cb nm st).2.doc = st.doc ∧
    (load t u cb nm st).2.nextNode = st.nextNode ∧
    (load t u cb nm st).2.timeouts = st.timeouts := by
  have hvalid : ¬(t ≠ "js" ∧ t ≠ "css") := by
    rcases ht with h | h <;> simp [h]
  unfold load
  rw [if_neg hvalid]
  dsimp only
  rw [hel]
  dsimp only
  split
  · cases cb <;> simp [invokeOpt]
  · cases cb <;> simp [subscribeOpt, pubsubSubscribe]

/-! ### Completion-hook behaviour -/

theorem datasetGet_datasetSet_self (e : Elem) (k v : String) :
    datasetGet (datasetSet e k v) k = some v := by
  unfold datasetGet datasetSet
  dsimp only
  have hpos : (fun (p : String × String) => decide (p.1 = k)) (k, v) = true := by
    simp
  rw [@List.find?_cons_of_pos (String × String) (fun p => decide (p.1 = k))
    (k, v) (e.dataset.filter (fun p => decide (p.1 ≠ k))) hpos]
  rfl

theorem unloadOne_doc (st : St) (n : NodeId) :
    (unloadOne st n).doc = st.doc.filter (fun m => m ≠ n) := by
  unfold unloadOne
  rcases hl : lookupNode st n with _ | e <;> rfl

theorem lookupNode_unloadOne (st : St) (n m : NodeId) :
    lookupNode (unloadOne st n) m = (lookupNode st m).map (stripChild n) := by
  unfold unloadOne
  rcases hl : lookupNode st n with _ | e <;> dsimp only
  · exact lookupNode_removeFromDoc st n m
  · exact lookupNode_removeFromDoc (pubsubClear st e.id) n m

theorem isLoadedNode_unloadOne (st : St) (n m : NodeId) :
    isLoadedNode (unloadOne st n) m = isLoadedNode st m := by
  unfold isLoadedNode
  rw [lookupNode_unloadOne]
  cases lookupNode st m <;> rfl

theorem unloadList_doc (els : List NodeId) (st : St) :
    (unloadList st els).doc = st.doc.filter (fun m => m ∉ els) := by
  induction els generalizing st with
  | nil =>
    show st.doc = _
    simp
  | cons e t ih =>
    show (unloadList (unloadOne st e) t).doc = _
    rw [ih, unloadOne_doc, List.filter_filter]
    apply List.filter_congr
    intro m _
    by_cases h1 : m = e <;> by_cases h2 : m ∈ t <;> simp [h1, h2]

theorem isLoadedNode_unloadList (els : List NodeId) (st : St) (m : NodeId) :
    isLoadedNode (unloadList st els) m = isLoadedNode st m := by
  induction els generalizing st with
  | nil => rfl
  | cons e t ih =>
    show isLoadedNode (unloadList (unloadOne st e) t) m = _
    rw [ih, isLoadedNode_unloadOne]

theorem lookupNode_unloadList (els : List NodeId) (st : St) (m : NodeId) :
    ∃ g : Elem → Elem,
      (∀ e, (g e).dataset = e.dataset ∧ (g e).id = e.id ∧ (g e).tag = e.tag ∧
        (g e).className = e.className) ∧
      lookupNode (unloadList st els) m = (lookupNode st m).map g := by
  induction els generalizing st with
  | nil =>
    refine ⟨id, fun e => ⟨rfl, rfl, rfl, rfl⟩, ?_⟩
    show lookupNode st m = (lookupNode st m).map id
    cases lookupNode st m <;> rfl
  | cons e t ih =>
    obtain ⟨g, hg, hl⟩ := ih (unloadOne st e)
    refine ⟨fun x => g (stripChild e x), fun x => hg (stripChild e x), ?_⟩
    show lookupNode (unloadList (unloadOne st e) t) m = _
    rw [hl, lookupNode_unloadOne]
    cases lookupNode st m <;> rfl

/-- The completion hook when the marker is still unset: it performs, in
order, marker set, snapshot removal, publish, clear. -/
theorem loadCompleteHook_run (h : Hook) (st : St)
    (hnl : isLoadedNode st h.elNode = false) :
    loadCompleteHook h st =
      pubsubClear
        (pubsubPublish
          (unloadList
            (updateNode st h.elNode (fun e => datasetSet e "loaded" "true"))
            h.elsToRemove)
          h.topic)
        h.topic := by
  unfold loadCompleteHook
  rw [if_neg (by simp [hnl])]

/-- The completion hook when the marker is already set: no effect. -/
theorem loadCompleteHook_noop (h : Hook) (st : St)
    (hl : isLoadedNode st h.elNode = true) :
    loadCompleteHook h st = st := by
  unfold loadCompleteHook
  rw [if_pos hl]

/-- Running the completion hook (marker unset, element present) sets the
element's loaded marker. -/
theorem isLoadedNode_after_hook (h : Hook) (st : St) (e : Elem)
    (hl : lookupNode st h.elNode = some e)
    (hm : truthy (datasetGet e "loaded") = false) :
    isLoadedNode (loadCompleteHook h st) h.elNode = true := by
  have hnl : isLoadedNode st h.elNode = false := by
    unfold isLoadedNode
    rw [hl]
    exact hm
  rw [loadCompleteHook_run h st hnl]
  show isLoadedNode (unloadList (updateNode st h.elNode _) h.elsToRemove) h.elNode = true
  rw [isLoadedNode_unloadList]
  unfold isLoadedNode
  rw [lookupNode_updateNode, if_pos rfl, hl]
  show truthy (datasetGet (datasetSet e "loaded" "true") "loaded") = true
  rw [datasetGet_datasetSet_self]
  rfl

/-- The document after a completion-hook run: exactly the snapshot
elements are detached. -/
theorem loadCompleteHook_doc (h : Hook) (st : St)
    (hnl : isLoadedNode st h.elNode = false) :
    (loadCompleteHook h st).doc =
      st.doc.filter (fun m => m ∉ h.elsToRemove) := by
  rw [loadCompleteHook_run h st hnl]
  show (unloadList (updateNode st h.elNode _) h.elsToRemove).doc = _
  rw [unloadList_doc]
  rfl

theorem pubsubTopic_pubsubClear_self (st : St) (t : String) :
    pubsubTopic (pubsubClear st t) t = [] := by
  unfold pubsubTopic pubsubClear
  dsimp only
  have hnone : (st.pubsub.filter (fun p => p.1 ≠ t)).find?
      (fun p => p.1 = t) = none := by
    rw [List.find?_eq_none]
    intro p hp
    have := List.of_mem_filter hp
    simp at this ⊢
    exact this
  rw [hnone]
  rfl

/-- The absent case of `load` in one equation: the callback is registered,
the stale snapshot is taken from the pre-load document, and a fresh element
is created whose completion closure carries the fresh node id, that
snapshot and the Identity topic; scripts are prepended to the document,
styles appended. -/
theorem load_absent (t u : String) (cb : Option Nat) (nm : Option String)
    (st : St) (ht : t = "js" ∨ t = "css")
    (habs : getElementById st (resourceId t u) = none) :
    load t u cb nm st =
      (some st.nextNode,
       let st1 := subscribeOpt st (resourceId t u) cb
       let snap := if nm.getD "" ≠ "" then domQuery st (tagOf t) (nm.getD "")
                   else []
       let e := mkResourceElem t u (resourceId t u) (nm.getD "")
         (some (Hook.mk st.nextNode snap (resourceId t u)))
       if t = "js" then
         { st1 with nodes := st1.nodes ++ [(st.nextNode, e)],
                    doc := st.nextNode :: st1.doc,
                    nextNode := st.nextNode + 1 }
       else
         { st1 with nodes := st1.nodes ++ [(st.nextNode, e)],
                    doc := st1.doc ++ [st.nextNode],
                    nextNode := st.nextNode + 1 }) := by
  have hvalid : ¬(t ≠ "js" ∧ t ≠ "css") := by
    rcases ht with h | h <;> simp [h]
  unfold load
  rw [if_neg hvalid]
  dsimp only
  rw [habs]
  dsimp only
  unfold loadInternal
  rw [if_neg hvalid]
  dsimp only
  rcases ht with rfl | rfl <;> cases cb <;> rfl

/-! ### Projection frame lemmas -/

@[simp] theorem pubsubClear_nodes (st : St) (t : String) :
    (pubsubClear st t).nodes = st.nodes := rfl
@[simp] theorem pubsubClear_doc (st : St) (t : String) :
    (pubsubClear st t).doc = st.doc := rfl
@[simp] theorem pubsubClear_trace (st : St) (t : String) :
    (pubsubClear st t).trace = st.trace := rfl
@[simp] theorem pubsubClear_timeouts (st : St) (t : String) :
    (pubsubClear st t).timeouts = st.timeouts := rfl
@[simp] theorem pubsubClear_nextNode (st : St) (t : String) :
    (pubsubClear st t).nextNode = st.nextNode := rfl

@[simp] theorem pubsubPublish_nodes (st : St) (t : String) :
    (pubsubPublish st t).nodes = st.nodes := rfl
@[simp] theorem pubsubPublish_doc (st : St) (t : String) :
    (pubsubPublish st t).doc = st.doc := rfl
@[simp] theorem pubsubPublish_pubsub (st : St) (t : String) :
    (pubsubPublish st t).pubsub = st.pubsub := rfl
@[simp] theorem pubsubPublish_trace (st : St) (t : String) :
    (pubsubPublish st t).trace = st.trace ++ pubsubTopic st t := rfl
@[simp] theorem pubsubPublish_timeouts (st : St) (t : String) :
    (pubsubPublish st t).timeouts = st.timeouts := rfl

@[simp] theorem updateNode_doc (st : St) (k : NodeId) (f : Elem → Elem) :
    (updateNode st k f).doc = st.doc := rfl
@[simp] theorem updateNode_pubsub (st : St) (k : NodeId) (f : Elem → Elem) :
    (updateNode st k f).pubsub = st.pubsub := rfl
@[simp] theorem updateNode_trace (st : St) (k : NodeId) (f : Elem → Elem) :
    (updateNode st k f).trace = st.trace := rfl
@[simp] theorem updateNode_timeouts (st : St) (k : NodeId) (f : Elem → Elem) :
    (updateNode st k f).timeouts = st.timeouts := rfl
@[simp] theorem updateNode_nextNode (st : St) (k : NodeId) (f : Elem → Elem) :
    (updateNode st k f).nextNode = st.nextNode := rfl

@[simp] theorem removeFromDoc_trace (st : St) (n : NodeId) :
    (removeFromDoc st n).trace = st.trace := rfl
@[simp] theorem removeFromDoc_pubsub (st : St) (n : NodeId) :
    (removeFromDoc st n).pubsub = st.pubsub := rfl
@[simp] theorem removeFromDoc_timeouts (st : St) (n : NodeId) :
    (removeFromDoc st n).timeouts = st.timeouts := rfl

@[simp] theorem subscribeOpt_nodes (st : St) (t : String) (cb : Option Nat) :
    (subscribeOpt st t cb).nodes = st.nodes := by cases cb <;> rfl
@[simp] theorem subscribeOpt_doc (st : St) (t : String) (cb : Option Nat) :
    (subscribeOpt st t cb).doc = st.doc := by cases cb <;> rfl
@[simp] theorem subscribeOpt_trace (st : St) (t : String) (cb : Option Nat) :
    (subscribeOpt st t cb).trace = st.trace := by cases cb <;> rfl
@[simp] theorem subscribeOpt_timeouts (st : St) (t : String) (cb : Option Nat) :
    (subscribeOpt st t cb).timeouts = st.timeouts := by cases cb <;> rfl
@[simp] theorem subscribeOpt_nextNode (st : St) (t : String) (cb : Option Nat) :
    (subscribeOpt st t cb).nextNode = st.nextNode := by cases cb <;> rfl

@[simp] theorem unloadList_nil (st : St) : unloadList st [] = st := rfl

theorem unloadOne_trace (st : St) (n : NodeId) :
    (unloadOne st n).trace = st.trace := by
  unfold unloadOne
  rcases hl : lookupNode st n with _ | e <;> rfl

theorem unloadList_trace (els : List NodeId) (st : St) :
    (unloadList st els).trace = st.trace := by
  induction els generalizing st with
  | nil => rfl
  | cons e t ih =>
    show (unloadList (unloadOne st e) t).trace = _
    rw [ih, unloadOne_trace]

theorem unloadOne_timeouts (st : St) (n : NodeId) :
    (unloadOne st n).timeouts = st.timeouts := by
  unfold unloadOne
  rcases hl : lookupNode st n with _ | e <;> rfl

theorem unloadList_timeouts (els : List NodeId) (st : St) :
    (unloadList st els).timeouts = st.timeouts := by
  induction els generalizing st with
  | nil => rfl
  | cons e t ih =>
    show (unloadList (unloadOne st e) t).timeouts = _
    rw [ih, unloadOne_timeouts]

/-- The topic of the pubsub registry is untouched by `updateNode`. -/
@[simp] theorem pubsubTopic_updateNode (st : St) (k : NodeId) (f : Elem → Elem)
    (t : String) : pubsubTopic (updateNode st k f) t = pubsubTopic st t := rfl

@[simp] theorem lookupNode_pubsubClear (st : St) (r : String) (m : NodeId) :
    lookupNode (pubsubClear st r) m = lookupNode st m := rfl
@[simp] theorem lookupNode_pubsubPublish (st : St) (r : String) (m : NodeId) :
    lookupNode (pubsubPublish st r) m = lookupNode st m := rfl
@[simp] theorem lookupNode_subscribeOpt (st : St) (r : String)
    (cb : Option Nat) (m : NodeId) :
    lookupNode (subscribeOpt st r cb) m = lookupNode st m := by
  cases cb <;> rfl

/-- The tag/class selector is insensitive to the state changes performed by
a completion-hook run (marker write, snapshot removal, publish, clear):
those never change any element's tag or class attribute. -/
theorem queryPred_hook_chain (st1 : St) (n0 : NodeId) (snap : List NodeId)
    (rid tag cls : String) (m : NodeId) :
    queryPred (pubsubClear (pubsubPublish
      (unloadList (updateNode st1 n0 (fun e => datasetSet e "loaded" "true"))
        snap) rid) rid) tag cls m = queryPred st1 tag cls m := by
  obtain ⟨g, hg, hl⟩ := lookupNode_unloadList snap
    (updateNode st1 n0 (fun e => datasetSet e "loaded" "true")) m
  unfold queryPred
  rw [lookupNode_pubsubClear, lookupNode_pubsubPublish, hl,
    lookupNode_updateNode]
  by_cases hm : m = n0
  · subst hm
    rw [if_pos rfl]
    cases hx : lookupNode st1 m with
    | none => rfl
    | some e =>
      simp only [Option.map_some']
      obtain ⟨hds, hid, htag, hcl⟩ := hg (datasetSet e "loaded" "true")
      rw [htag, hcl]
      rfl
  · rw [if_neg hm]
    cases hx : lookupNode st1 m with
    | none => rfl
    | some e =>
      simp only [Option.map_some']
      obtain ⟨hds, hid, htag, hcl⟩ := hg e
      rw [htag, hcl]

/-! ### Absent-case corollaries -/

theorem load_absent_lookup_new (t u : String) (cb : Option Nat)
    (nm : Option String) (st : St) (ht : t = "js" ∨ t = "css")
    (habs : getElementById st (resourceId t u) = none)
    (hfresh : ∀ p ∈ st.nodes, p.1 ≠ st.nextNode) :
    lookupNode (load t u cb nm st).2 st.nextNode =
      some (mkResourceElem t u (resourceId t u) (nm.getD "")
        (some ⟨st.nextNode,
          (if nm.getD "" ≠ "" then domQuery st (tagOf t) (nm.getD "") else []),
          resourceId t u⟩)) := by
  rw [load_absent t u cb nm st ht habs]
  dsimp only
  rcases ht with rfl | rfl
  · rw [if_pos rfl]
    show nodesFind ((subscribeOpt st _ cb).nodes ++ [(st.nextNode, _)])
      st.nextNode = _
    rw [subscribeOpt_nodes]
    exact nodesFind_append_fresh st.nodes st.nextNode _ hfresh
  · rw [if_neg (by decide)]
    show nodesFind ((subscribeOpt st _ cb).nodes ++ [(st.nextNode, _)])
      st.nextNode = _
    rw [subscribeOpt_nodes]
    exact nodesFind_append_fresh st.nodes st.nextNode _ hfresh

theorem load_absent_doc (t u : String) (cb : Option Nat) (nm : Option String)
    (st : St) (ht : t = "js" ∨ t = "css")
    (habs : getElementById st (resourceId t u) = none) :
    (load t u cb nm st).2.doc =
      (if t = "js" then st.nextNode :: st.doc else st.doc ++ [st.nextNode]) := by
  rw [load_absent t u cb nm st ht habs]
  dsimp only
  rcases ht with rfl | rfl
  · rw [if_pos rfl, if_pos rfl]
    show st.nextNode :: (subscribeOpt st _ cb).doc = _
    rw [subscribeOpt_doc]
  · have hcs : ¬ ("css" = "js") := by decide
    rw [if_neg hcs, if_neg hcs]
    show (subscribeOpt st _ cb).doc ++ [st.nextNode] = _
    rw [subscribeOpt_doc]

theorem load_absent_trace (t u : String) (cb : Option Nat) (nm : Option String)
    (st : St) (ht : t = "js" ∨ t = "css")
    (habs : getElementById st (resourceId t u) = none) :
    (load t u cb nm st).2.trace = st.trace := by
  rw [load_absent t u cb nm st ht habs]
  dsimp only
  rcases ht with rfl | rfl
  · rw [if_pos rfl]
    show (subscribeOpt st _ cb).trace = _
    rw [subscribeOpt_trace]
  · rw [if_neg (by decide)]
    show (subscribeOpt st _ cb).trace = _
    rw [subscribeOpt_trace]

theorem load_absent_fst (t u : String) (cb : Option Nat) (nm : Option String)
    (st : St) (ht : t = "js" ∨ t = "css")
    (habs : getElementById st (resourceId t u) = none) :
    (load t u cb nm st).1 = some st.nextNode := by
  rw [load_absent t u cb nm st ht habs]

theorem load_absent_lookup_old (t u : String) (cb : Option Nat)
    (nm : Option String) (st : St) (ht : t = "js" ∨ t = "css")
    (habs : getElementById st (resourceId t u) = none) (m : NodeId)
    (hm : m ≠ st.nextNode) :
    lookupNode (load t u cb nm st).2 m = lookupNode st m := by
  rw [load_absent t u cb nm st ht habs]
  dsimp only
  rcases ht with rfl | rfl
  · rw [if_pos rfl]
    show nodesFind ((subscribeOpt st _ cb).nodes ++ [(st.nextNode, _)]) m = _
    rw [subscribeOpt_nodes]
    exact nodesFind_append_ne st.nodes st.nextNode m _ hm
  · rw [if_neg (show ¬ ("css" = "js") by decide)]
    show nodesFind ((subscribeOpt st _ cb).nodes ++ [(st.nextNode, _)]) m = _
    rw [subscribeOpt_nodes]
    exact nodesFind_append_ne st.nodes st.nextNode m _ hm

/-! ### Concrete fixtures for witnesses -/

/-- A script element, attached and still loading, with one pending
callback under its topic in `stA`. -/
def elemA : Elem :=
  { tag := "script", id := "x", className := "", rel := "", src := "a.js",
    href := "", dataAttr := "", dataset := [], onloadSet := true,
    fn := some ⟨0, [], "x"⟩, contentDoc := [] }

def stA : St :=
  { nodes := [(0, elemA)], doc := [0], pubsub := [("x", [5])], trace := [],
    nextNode := 1, timeouts := [] }

/-- A state in which `a.js` has been loaded and its completion has run. -/
def stLoaded : St :=
  run [Op.opLoad "js" "a.js" none none, Op.opFireOnload 0, Op.opTick false]

/-- A state in which `a.js` is still loading, with callback 1 pending. -/
def stLoading : St :=
  (load "js" "a.js" (some 1) none St.init).2

/-- `a.js` loading under the name `main`. -/
def stNamed : St :=
  (load "js" "a.js" none (some "main") St.init).2

/-- then `b.js` loading under the same name (callback 2 pending). -/
def stNamed2 : St :=
  (load "js" "b.js" (some 2) (some "main") stNamed).2

/-- then `c.js` added under the same name while `b.js` is still loading. -/
def stNamed3 : St :=
  (load "js" "c.js" none (some "main") stNamed2).2

/-- A script prefetch followed by a style prefetch from the empty
document. -/
def stTwoPrefetch : St :=
  prefetch "css" "b.css" (prefetch "js" "a.js" St.init)

/-! ### Claims -/

/-- C1: for every accepted resource type and every URL, after any sequence
of operations starting from the empty document, at most one attached
element bears the derived Identity; moreover a `load` call that finds the
element already present (loading or loaded) returns that existing element
and never invokes the Loader again: the node store, the document, the
fresh-node counter and the timeout queue are all unchanged, so no second
element is created and no second request is triggered. -/
theorem C1_at_most_one_element (ops : List Op) (type url : String)
    (cb : Option Nat) (name : Option String)
    (ht : type = "js" ∨ type = "css") :
    countId (run ops) (resourceId type url) ≤ 1 ∧
    (∀ n, getElementById (run ops) (resourceId type url) = some n →
      (load type url cb name (run ops)).1 = some n ∧
      (load type url cb name (run ops)).2.nodes = (run ops).nodes ∧
      (load type url cb name (run ops)).2.doc = (run ops).doc ∧
      (load type url cb name (run ops)).2.nextNode = (run ops).nextNode ∧
      (load type url cb name (run ops)).2.timeouts = (run ops).timeouts) :=
  ⟨countId_le_one (run ops) (WF_run ops) _,
   fun n hn => load_existing type url cb name (run ops) n ht hn⟩

/-- Witness for C1 at a concrete input: one load of `a.js`, then a second
load for the same (type, url) returns element `0` and changes nothing. -/
theorem C1_at_most_one_element_witness :
    countId (run [Op.opLoad "js" "a.js" (some 1) none])
      (resourceId "js" "a.js") ≤ 1 ∧
    ((load "js" "a.js" (some 2) none
        (run [Op.opLoad "js" "a.js" (some 1) none])).1 = some 0 ∧
      (load "js" "a.js" (some 2) none
        (run [Op.opLoad "js" "a.js" (some 1) none])).2.nodes =
        (run [Op.opLoad "js" "a.js" (some 1) none]).nodes ∧
      (load "js" "a.js" (some 2) none
        (run [Op.opLoad "js" "a.js" (some 1) none])).2.doc =
        (run [Op.opLoad "js" "a.js" (some 1) none]).doc ∧
      (load "js" "a.js" (some 2) none
        (run [Op.opLoad "js" "a.js" (some 1) none])).2.nextNode =
        (run [Op.opLoad "js" "a.js" (some 1) none]).nextNode ∧
      (load "js" "a.js" (some 2) none
        (run [Op.opLoad "js" "a.js" (some 1) none])).2.timeouts =
        (run [Op.opLoad "js" "a.js" (some 1) none]).timeouts) := by
  have h := C1_at_most_one_element [Op.opLoad "js" "a.js" (some 1) none]
    "js" "a.js" (some 2) none (Or.inl rfl)
  exact ⟨h.1, h.2 0 (by decide)⟩

/-- C2: the completion hook attached to a newly created element, on its
first invocation (loaded marker still unset), performs exactly these steps
in this order: set the element's loaded marker, remove the pre-load
snapshot of stale same-named elements, publish the Identity topic (running
all pending callbacks once, in registration order, per `pubsubPublish`),
then clear the topic; a second invocation of the same hook finds the marker
already true and has no effect. -/
theorem C2_completion_hook_once (h : Hook) (st : St) (e : Elem)
    (hl : lookupNode st h.elNode = some e)
    (hm : truthy (datasetGet e "loaded") = false) :
    loadCompleteHook h st =
      pubsubClear
        (pubsubPublish
          (unloadList
            (updateNode st h.elNode (fun x => datasetSet x "loaded" "true"))
            h.elsToRemove)
          h.topic)
        h.topic ∧
    loadCompleteHook h (loadCompleteHook h st) = loadCompleteHook h st := by
  have hnl : isLoadedNode st h.elNode = false := by
    unfold isLoadedNode
    rw [hl]
    exact hm
  exact ⟨loadCompleteHook_run h st hnl,
    loadCompleteHook_noop h _ (isLoadedNode_after_hook h st e hl hm)⟩

/-- Witness for C2 at a concrete loading element. -/
theorem C2_completion_hook_once_witness :
    loadCompleteHook ⟨0, [], "x"⟩ stA =
      pubsubClear
        (pubsubPublish
          (unloadList (updateNode stA 0 (fun x => datasetSet x "loaded" "true")) [])
          "x")
        "x" ∧
    loadCompleteHook ⟨0, [], "x"⟩ (loadCompleteHook ⟨0, [], "x"⟩ stA) =
      loadCompleteHook ⟨0, [], "x"⟩ stA :=
  C2_completion_hook_once ⟨0, [], "x"⟩ stA elemA (by decide) (by decide)

/-- C4: when the element for the Identity exists and its loaded marker is
true, `load` invokes the given callback synchronously exactly once (only
the trace grows, by that one label), returns the existing element, and
performs no DOM mutation and no callback registration; with no callback
the state is returned untouched. -/
theorem C4_already_loaded (t u : String) (c : Nat) (nm : Option String)
    (st : St) (n : NodeId) (ht : t = "js" ∨ t = "css")
    (hel : getElementById st (resourceId t u) = some n)
    (hld : isLoadedNode st n = true) :
    load t u (some c) nm st = (some n, { st with trace := st.trace ++ [c] }) ∧
    load t u none nm st = (some n, st) := by
  have hvalid : ¬(t ≠ "js" ∧ t ≠ "css") := by
    rcases ht with h | h <;> simp [h]
  constructor <;>
    (unfold load
     rw [if_neg hvalid]
     dsimp only
     rw [hel]
     dsimp only
     rw [if_pos hld]
     rfl)

/-- Witness for C4: reloading `a.js` after completion runs callback 7
immediately and changes nothing else. -/
theorem C4_already_loaded_witness :
    load "js" "a.js" (some 7) none stLoaded =
      (some 0, { stLoaded with trace := stLoaded.trace ++ [7] }) ∧
    load "js" "a.js" none none stLoaded = (some 0, stLoaded) :=
  C4_already_loaded "js" "a.js" 7 none stLoaded 0 (Or.inl rfl) (by decide)
    (by decide)

/-- C5: for a type other than the two accepted literal discriminators,
`load` returns null with the state untouched (no element, no registration,
no invocation, no document mutation), and `unload`, `ignore` and `prefetch`
return without any action; no error is raised (all operations are total). -/
theorem C5_invalid_type_noop (t u : String) (cb : Option Nat)
    (nm : Option String) (st : St) (ht : t ≠ "js" ∧ t ≠ "css") :
    load t u cb nm st = (none, st) ∧ unload t u st = st ∧
    ignore t u st = st ∧ prefetch t u st = st := by
  refine ⟨?_, ?_, ?_, ?_⟩
  · unfold load
    rw [if_pos ht]
  · unfold unload
    rw [if_pos ht]
  · unfold ignore
    rw [if_pos ht]
  · unfold prefetch
    rw [if_pos ht]

/-- Witness for C5 with the unsupported type `img`. -/
theorem C5_invalid_type_noop_witness :
    load "img" "a.png" (some 1) none stA = (none, stA) ∧
    unload "img" "a.png" stA = stA ∧
    ignore "img" "a.png" stA = stA ∧
    prefetch "img" "a.png" stA = stA :=
  C5_invalid_type_noop "img" "a.png" (some 1) none stA
    ⟨by decide, by decide⟩

/-- C6: firing the engine's load signal on an element created with a
completion function only appends the deferred completion task to the
`setTimeout` queue — the completion function is never run directly, even
if the engine signals synchronously (nothing but the queue changes); the
readiness-state path on states 'loaded' and 'complete' forwards into the
same `onload` handler and hence the same deferred dispatch; and when the
queue was empty, the completion function actually runs at the next
scheduling tick. -/
theorem C6_deferred_dispatch (st : St) (n : NodeId) (e : Elem) (h : Hook)
    (hl : lookupNode st n = some e) (hset : e.onloadSet = true)
    (hfn : e.fn = some h) (hq : st.timeouts = []) :
    fireOnload st n = { st with timeouts := st.timeouts ++ [Task.hook h] } ∧
    fireReadyStateChange st n "loaded" = fireOnload st n ∧
    fireReadyStateChange st n "complete" = fireOnload st n ∧
    runNextTimeout false (fireOnload st n) = loadCompleteHook h st ∧
    runNextTimeout true (fireOnload st n) = loadCompleteHook h st := by
  have h1 : fireOnload st n =
      { st with timeouts := st.timeouts ++ [Task.hook h] } := by
    unfold fireOnload
    rw [hl]
    dsimp only
    rw [if_pos hset, hfn]
  refine ⟨h1, ?_, ?_, ?_, ?_⟩
  · unfold fireReadyStateChange
    rw [hl]
    dsimp only
    rw [if_pos hset, if_pos (Or.inl rfl)]
  · unfold fireReadyStateChange
    rw [hl]
    dsimp only
    rw [if_pos hset, if_pos (Or.inr rfl)]
  · rw [h1, hq]
    unfold runNextTimeout
    dsimp only
    show loadCompleteHook h { st with timeouts := [] } = _
    rw [← hq]
  · rw [h1, hq]
    unfold runNextTimeout
    dsimp only
    show loadCompleteHook h { st with timeouts := [] } = _
    rw [← hq]

/-- Witness for C6 on the loading element of `stA`. -/
theorem C6_deferred_dispatch_witness :
    fireOnload stA 0 = { stA with timeouts := stA.timeouts ++ [Task.hook ⟨0, [], "x"⟩] } ∧
    fireReadyStateChange stA 0 "loaded" = fireOnload stA 0 ∧
    fireReadyStateChange stA 0 "complete" = fireOnload stA 0 ∧
    runNextTimeout false (fireOnload stA 0) = loadCompleteHook ⟨0, [], "x"⟩ stA ∧
    runNextTimeout true (fireOnload stA 0) = loadCompleteHook ⟨0, [], "x"⟩ stA :=
  C6_deferred_dispatch stA 0 elemA ⟨0, [], "x"⟩ (by decide) (by decide)
    (by decide) (by decide)

/-- C8: with a valid type, `unload` on an existing element first clears the
element's pending-callback topic (the derived Identity) and then detaches
the element, in that order; when no element with the Identity exists, the
state is returned entirely unchanged. -/
theorem C8_unload_clears_then_detaches (t u : String) (st : St)
    (ht : t = "js" ∨ t = "css") :
    unload t u st =
      (match getElementById st (resourceId t u) with
       | some n => removeFromDoc (pubsubClear st (resourceId t u)) n
       | none => st) := by
  have hvalid : ¬(t ≠ "js" ∧ t ≠ "css") := by
    rcases ht with h | h <;> simp [h]
  unfold unload
  rw [if_neg hvalid]
  dsimp only
  rcases hel : getElementById st (resourceId t u) with _ | n <;> dsimp only
  obtain ⟨hmem, e, hle, hid⟩ := getElementById_eq_some st _ n hel
  show unloadOne st n = _
  unfold unloadOne
  rw [hle]
  dsimp only
  rw [hid]

/-- Witness for C8 on a loading element and on an absent one. -/
theorem C8_unload_clears_then_detaches_witness :
    unload "js" "a.js" stLoading =
      (match getElementById stLoading (resourceId "js" "a.js") with
       | some n => removeFromDoc (pubsubClear stLoading (resourceId "js" "a.js")) n
       | none => stLoading) :=
  C8_unload_clears_then_detaches "js" "a.js" stLoading (Or.inl rfl)

/-- C9: with a valid type, `ignore` clears the pending-callback topic for
the derived Identity and changes nothing else (node store, document, trace
and timeout queue untouched, topic empty afterwards); consequently, in the
scenario where a `load` registered callback `c` and is still pending, after
an `ignore` the callback never runs when the element's completion hook
fires, while the element remains in the document and still gets its loaded
marker set at completion. -/
theorem C9_ignore_clears_topic_only (t u : String) (c : Nat) (st : St)
    (hWF : WF st) (ht : t = "js" ∨ t = "css")
    (habs : getElementById st (resourceId t u) = none)
    (hc : c ∉ st.trace) :
    ignore t u st = pubsubClear st (resourceId t u) ∧
    (ignore t u st).nodes = st.nodes ∧
    (ignore t u st).doc = st.doc ∧
    (ignore t u st).trace = st.trace ∧
    (ignore t u st).timeouts = st.timeouts ∧
    pubsubTopic (ignore t u st) (resourceId t u) = [] ∧
    ((lookupNode (load t u (some c) none st).2 st.nextNode).map Elem.fn =
      some (some ⟨st.nextNode, [], resourceId t u⟩) ∧
     c ∉ (loadCompleteHook ⟨st.nextNode, [], resourceId t u⟩
       (ignore t u (load t u (some c) none st).2)).trace ∧
     st.nextNode ∈ (loadCompleteHook ⟨st.nextNode, [], resourceId t u⟩
       (ignore t u (load t u (some c) none st).2)).doc ∧
     isLoadedNode (loadCompleteHook ⟨st.nextNode, [], resourceId t u⟩
       (ignore t u (load t u (some c) none st).2)) st.nextNode = true) := by
  have hvalid : ¬(t ≠ "js" ∧ t ≠ "css") := by
    rcases ht with h | h <;> simp [h]
  have hig : ∀ s : St, ignore t u s = pubsubClear s (resourceId t u) := by
    intro s
    unfold ignore
    rw [if_neg hvalid]
  have hfresh : ∀ p ∈ st.nodes, p.1 ≠ st.nextNode :=
    fun p hp => Nat.ne_of_lt (hWF.1 p hp)
  have hlook : lookupNode (load t u (some c) none st).2 st.nextNode =
      some (mkResourceElem t u (resourceId t u) ""
        (some ⟨st.nextNode, [], resourceId t u⟩)) :=
    load_absent_lookup_new t u (some c) none st ht habs hfresh
  have hlook2 : lookupNode
      (pubsubClear (load t u (some c) none st).2 (resourceId t u))
      st.nextNode =
      some (mkResourceElem t u (resourceId t u) ""
        (some ⟨st.nextNode, [], resourceId t u⟩)) := hlook
  have hm : truthy (datasetGet (mkResourceElem t u (resourceId t u) ""
      (some ⟨st.nextNode, [], resourceId t u⟩)) "loaded") = false := rfl
  have hnl : isLoadedNode
      (pubsubClear (load t u (some c) none st).2 (resourceId t u))
      st.nextNode = false := by
    unfold isLoadedNode
    rw [hlook2]
    exact hm
  have htr : (loadCompleteHook ⟨st.nextNode, [], resourceId t u⟩
      (pubsubClear (load t u (some c) none st).2 (resourceId t u))).trace =
      st.trace := by
    rw [loadCompleteHook_run _ _ hnl]
    dsimp only
    rw [pubsubClear_trace, pubsubPublish_trace, unloadList_nil,
      updateNode_trace, pubsubTopic_updateNode, pubsubClear_trace,
      pubsubTopic_pubsubClear_self,
      load_absent_trace t u (some c) none st ht habs]
    simp
  have hdoc : st.nextNode ∈ (loadCompleteHook ⟨st.nextNode, [], resourceId t u⟩
      (pubsubClear (load t u (some c) none st).2 (resourceId t u))).doc := by
    rw [loadCompleteHook_doc _ _ hnl]
    dsimp only
    rw [pubsubClear_doc, load_absent_doc t u (some c) none st ht habs]
    rcases ht with rfl | rfl
    · rw [if_pos rfl]
      simp
    · rw [if_neg (show ¬ ("css" = "js") by decide)]
      simp
  have hloaded : isLoadedNode (loadCompleteHook ⟨st.nextNode, [], resourceId t u⟩
      (pubsubClear (load t u (some c) none st).2 (resourceId t u)))
      st.nextNode = true :=
    isLoadedNode_after_hook _ _ _ hlook2 hm
  refine ⟨hig st, ?_, ?_, ?_, ?_, ?_, ?_, ?_, ?_, ?_⟩
  · rw [hig st, pubsubClear_nodes]
  · rw [hig st, pubsubClear_doc]
  · rw [hig st, pubsubClear_trace]
  · rw [hig st, pubsubClear_timeouts]
  · rw [hig st]
    exact pubsubTopic_pubsubClear_self st _
  · rw [hlook]
    rfl
  · rw [hig]
    rw [htr]
    exact hc
  · rw [hig]
    exact hdoc
  · rw [hig]
    exact hloaded

/-- Witness for C9: ignoring `x.css` from the empty document. -/
theorem C9_ignore_clears_topic_only_witness :
    ignore "css" "x.css" St.init =
      pubsubClear St.init (resourceId "css" "x.css") ∧
    (ignore "css" "x.css" St.init).nodes = St.init.nodes ∧
    (ignore "css" "x.css" St.init).doc = St.init.doc ∧
    (ignore "css" "x.css" St.init).trace = St.init.trace ∧
    (ignore "css" "x.css" St.init).timeouts = St.init.timeouts ∧
    pubsubTopic (ignore "css" "x.css" St.init) (resourceId "css" "x.css") = [] ∧
    ((lookupNode (load "css" "x.css" (some 5) none St.init).2
        St.init.nextNode).map Elem.fn =
      some (some ⟨St.init.nextNode, [], resourceId "css" "x.css"⟩) ∧
     5 ∉ (loadCompleteHook ⟨St.init.nextNode, [], resourceId "css" "x.css"⟩
       (ignore "css" "x.css" (load "css" "x.css" (some 5) none St.init).2)).trace ∧
     St.init.nextNode ∈
      (loadCompleteHook ⟨St.init.nextNode, [], resourceId "css" "x.css"⟩
       (ignore "css" "x.css" (load "css" "x.css" (some 5) none St.init).2)).doc ∧
     isLoadedNode (loadCompleteHook ⟨St.init.nextNode, [], resourceId "css" "x.css"⟩
       (ignore "css" "x.css" (load "css" "x.css" (some 5) none St.init).2))
       St.init.nextNode = true) :=
  C9_ignore_clears_topic_only "css" "x.css" 5 St.init WF_init (Or.inr rfl)
    (by decide) (by decide)

/-- C3: a named `load` that creates a new element returns the fresh node,
whose completion closure carries the pre-load snapshot of same-tag
same-name elements; once that element's completion hook runs, exactly the
new element bears the (tag, name) pair in the document; the set of elements
detached at completion is exactly the pre-load snapshot restricted to the
document (on the undisturbed run: exactly the snapshot); and on any
document state at completion time, only snapshot members are removed —
same-named elements added during the load are not. -/
theorem C3_named_generation_swap (t u : String) (cb : Option Nat)
    (nm : String) (st : St) (hWF : WF st) (ht : t = "js" ∨ t = "css")
    (habs : getElementById st (resourceId t u) = none) (hnm : nm ≠ "") :
    (load t u cb (some nm) st).1 = some st.nextNode ∧
    (lookupNode (load t u cb (some nm) st).2 st.nextNode).map Elem.fn =
      some (some ⟨st.nextNode, domQuery st (tagOf t) nm, resourceId t u⟩) ∧
    domQuery (loadCompleteHook
        ⟨st.nextNode, domQuery st (tagOf t) nm, resourceId t u⟩
        (load t u cb (some nm) st).2) (tagOf t) nm = [st.nextNode] ∧
    (loadCompleteHook ⟨st.nextNode, domQuery st (tagOf t) nm, resourceId t u⟩
        (load t u cb (some nm) st).2).doc =
      (load t u cb (some nm) st).2.doc.filter
        (fun m => m ∉ domQuery st (tagOf t) nm) ∧
    (∀ st' : St, isLoadedNode st' st.nextNode = false →
      (loadCompleteHook ⟨st.nextNode, domQuery st (tagOf t) nm, resourceId t u⟩
        st').doc = st'.doc.filter (fun m => m ∉ domQuery st (tagOf t) nm)) := by
  have hfresh : ∀ p ∈ st.nodes, p.1 ≠ st.nextNode :=
    fun p hp => Nat.ne_of_lt (hWF.1 p hp)
  have hlook1 : lookupNode (load t u cb (some nm) st).2 st.nextNode =
      some (mkResourceElem t u (resourceId t u) nm
        (some ⟨st.nextNode, domQuery st (tagOf t) nm, resourceId t u⟩)) := by
    have h0 := load_absent_lookup_new t u cb (some nm) st ht habs hfresh
    rw [if_pos (show ((some nm).getD "" ≠ "") from hnm)] at h0
    exact h0
  have hnl1 : isLoadedNode (load t u cb (some nm) st).2 st.nextNode = false := by
    unfold isLoadedNode
    rw [hlook1]
    rfl
  have hdocfilter : (loadCompleteHook
      ⟨st.nextNode, domQuery st (tagOf t) nm, resourceId t u⟩
      (load t u cb (some nm) st).2).doc =
      (load t u cb (some nm) st).2.doc.filter
        (fun m => m ∉ domQuery st (tagOf t) nm) :=
    loadCompleteHook_doc _ _ hnl1
  have hn0notin : st.nextNode ∉ domQuery st (tagOf t) nm := by
    intro hmem
    exact absurd (hWF.2.2.1 st.nextNode (List.mem_of_mem_filter hmem))
      (Nat.lt_irrefl _)
  have hq2 : ∀ m, queryPred (loadCompleteHook
      ⟨st.nextNode, domQuery st (tagOf t) nm, resourceId t u⟩
      (load t u cb (some nm) st).2) (tagOf t) nm m =
      queryPred (load t u cb (some nm) st).2 (tagOf t) nm m := by
    intro m
    rw [loadCompleteHook_run _ _ hnl1]
    exact queryPred_hook_chain (load t u cb (some nm) st).2 st.nextNode
      (domQuery st (tagOf t) nm) (resourceId t u) (tagOf t) nm m
  have hq1new : queryPred (load t u cb (some nm) st).2 (tagOf t) nm
      st.nextNode = true := by
    unfold queryPred
    rw [hlook1]
    dsimp only [mkResourceElem]
    simp
  have hq1old : ∀ m ∈ st.doc,
      queryPred (load t u cb (some nm) st).2 (tagOf t) nm m =
        queryPred st (tagOf t) nm m := by
    intro m hm
    unfold queryPred
    rw [load_absent_lookup_old t u cb (some nm) st ht habs m
      (Nat.ne_of_lt (hWF.2.2.1 m hm))]
  have hnil : (st.doc.filter (fun m => m ∉ domQuery st (tagOf t) nm)).filter
      (queryPred (load t u cb (some nm) st).2 (tagOf t) nm) = [] := by
    rw [List.filter_eq_nil_iff]
    intro m hm hq
    have hmdoc : m ∈ st.doc := List.mem_of_mem_filter hm
    have hqst : queryPred st (tagOf t) nm m = true := by
      rw [← hq1old m hmdoc]
      exact hq
    have hmem : m ∈ domQuery st (tagOf t) nm :=
      List.mem_filter.2 ⟨hmdoc, hqst⟩
    have hnot := (List.mem_filter.1 hm).2
    simp at hnot
    exact hnot hmem
  have hmain : domQuery (loadCompleteHook
      ⟨st.nextNode, domQuery st (tagOf t) nm, resourceId t u⟩
      (load t u cb (some nm) st).2) (tagOf t) nm = [st.nextNode] := by
    rw [show domQuery (loadCompleteHook
        ⟨st.nextNode, domQuery st (tagOf t) nm, resourceId t u⟩
        (load t u cb (some nm) st).2) (tagOf t) nm =
      (loadCompleteHook ⟨st.nextNode, domQuery st (tagOf t) nm, resourceId t u⟩
        (load t u cb (some nm) st).2).doc.filter
        (queryPred (loadCompleteHook
          ⟨st.nextNode, domQuery st (tagOf t) nm, resourceId t u⟩
          (load t u cb (some nm) st).2) (tagOf t) nm) from rfl]
    rw [hdocfilter, List.filter_congr (fun m _ => hq2 m),
      load_absent_doc t u cb (some nm) st ht habs]
    rcases ht with rfl | rfl
    · rw [if_pos rfl]
      rw [List.filter_cons_of_pos (by simp [hn0notin])]
      rw [List.filter_cons_of_pos hq1new]
      rw [hnil]
    · rw [if_neg (show ¬ ("css" = "js") by decide)]
      rw [List.filter_append, List.filter_append, hnil]
      simp [hn0notin, hq1new]
  refine ⟨load_absent_fst t u cb (some nm) st ht habs, ?_, hmain, hdocfilter, ?_⟩
  · rw [hlook1]
    rfl
  · intro st' h'
    exact loadCompleteHook_doc _ st' h'

/-- Witness for C3: `a.js` is loaded under the name `main`, then `b.js`
under the same name; the snapshot-removal facts are instantiated both at
the undisturbed post-load state and at a state where `c.js` was added under
the same name during the load (late addition, not removed). -/
theorem C3_named_generation_swap_witness :
    (load "js" "b.js" (some 2) (some "main") stNamed).1 =
      some stNamed.nextNode ∧
    (lookupNode (load "js" "b.js" (some 2) (some "main") stNamed).2
        stNamed.nextNode).map Elem.fn =
      some (some ⟨stNamed.nextNode, domQuery stNamed (tagOf "js") "main",
        resourceId "js" "b.js"⟩) ∧
    domQuery (loadCompleteHook
        ⟨stNamed.nextNode, domQuery stNamed (tagOf "js") "main",
          resourceId "js" "b.js"⟩
        (load "js" "b.js" (some 2) (some "main") stNamed).2)
        (tagOf "js") "main" = [stNamed.nextNode] ∧
    (loadCompleteHook
        ⟨stNamed.nextNode, domQuery stNamed (tagOf "js") "main",
          resourceId "js" "b.js"⟩
        (load "js" "b.js" (some 2) (some "main") stNamed).2).doc =
      (load "js" "b.js" (some 2) (some "main") stNamed).2.doc.filter
        (fun m => m ∉ domQuery stNamed (tagOf "js") "main") ∧
    (loadCompleteHook
        ⟨stNamed.nextNode, domQuery stNamed (tagOf "js") "main",
          resourceId "js" "b.js"⟩ stNamed3).doc =
      stNamed3.doc.filter
        (fun m => m ∉ domQuery stNamed (tagOf "js") "main") := by
  have h := C3_named_generation_swap "js" "b.js" (some 2) "main" stNamed
    (by decide) (Or.inl rfl) (by decide) (by decide)
  exact ⟨h.1, h.2.1, h.2.2.1, h.2.2.2.1, h.2.2.2.2 stNamed3 (by decide)⟩

/-- C10: for a named `load` that creates a new element, the stale-element
snapshot is queried from the document before the Loader creates and inserts
the new element: the snapshot is a subset of the pre-load document and so
never contains the fresh node; consequently on any document state at
completion time, the completion hook never detaches the element it has just
marked loaded. -/
theorem C10_snapshot_before_creation (t u : String) (cb : Option Nat)
    (nm : String) (st : St) (hWF : WF st) (ht : t = "js" ∨ t = "css")
    (habs : getElementById st (resourceId t u) = none) (hnm : nm ≠ "") :
    (lookupNode (load t u cb (some nm) st).2 st.nextNode).map Elem.fn =
      some (some ⟨st.nextNode, domQuery st (tagOf t) nm, resourceId t u⟩) ∧
    st.nextNode ∉ domQuery st (tagOf t) nm ∧
    (∀ e ∈ domQuery st (tagOf t) nm, e ∈ st.doc) ∧
    (∀ st' : St, st.nextNode ∈ st'.doc →
      st.nextNode ∈ (loadCompleteHook
        ⟨st.nextNode, domQuery st (tagOf t) nm, resourceId t u⟩ st').doc) := by
  have hfresh : ∀ p ∈ st.nodes, p.1 ≠ st.nextNode :=
    fun p hp => Nat.ne_of_lt (hWF.1 p hp)
  have hlook1 : lookupNode (load t u cb (some nm) st).2 st.nextNode =
      some (mkResourceElem t u (resourceId t u) nm
        (some ⟨st.nextNode, domQuery st (tagOf t) nm, resourceId t u⟩)) := by
    have h0 := load_absent_lookup_new t u cb (some nm) st ht habs hfresh
    rw [if_pos (show ((some nm).getD "" ≠ "") from hnm)] at h0
    exact h0
  have hn0notin : st.nextNode ∉ domQuery st (tagOf t) nm := by
    intro hmem
    exact absurd (hWF.2.2.1 st.nextNode (List.mem_of_mem_filter hmem))
      (Nat.lt_irrefl _)
  refine ⟨?_, hn0notin, fun e he => List.mem_of_mem_filter he, ?_⟩
  · rw [hlook1]
    rfl
  · intro st' hmem
    cases hl : isLoadedNode st' st.nextNode with
    | true =>
      rw [loadCompleteHook_noop _ _ hl]
      exact hmem
    | false =>
      rw [loadCompleteHook_doc _ _ hl]
      exact List.mem_filter.2 ⟨hmem, by simp [hn0notin]⟩

/-- Witness for C10 in the named-swap scenario, with the hook applied to a
state where the fresh element is attached alongside a late same-named
addition. -/
theorem C10_snapshot_before_creation_witness :
    (lookupNode (load "js" "b.js" (some 2) (some "main") stNamed).2
        stNamed.nextNode).map Elem.fn =
      some (some ⟨stNamed.nextNode, domQuery stNamed (tagOf "js") "main",
        resourceId "js" "b.js"⟩) ∧
    stNamed.nextNode ∉ domQuery stNamed (tagOf "js") "main" ∧
    0 ∈ stNamed.doc ∧
    stNamed.nextNode ∈ (loadCompleteHook
      ⟨stNamed.nextNode, domQuery stNamed (tagOf "js") "main",
        resourceId "js" "b.js"⟩ stNamed3).doc := by
  have h := C10_snapshot_before_creation "js" "b.js" (some 2) "main" stNamed
    (by decide) (Or.inl rfl) (by decide) (by decide)
  exact ⟨h.1, h.2.1, h.2.2.1 0 (by decide), h.2.2.2 stNamed3 (by decide)⟩

theorem mem_of_lookupNode (st : St) (f : NodeId) (e : Elem)
    (h : lookupNode st f = some e) : (f, e) ∈ st.nodes := by
  unfold lookupNode nodesFind at h
  cases hf : st.nodes.find? (fun p => p.1 = f) with
  | none => rw [hf] at h; simp at h
  | some p =>
    rw [hf] at h
    have hp1 : p.1 = f := by simpa using List.find?_some hf
    have hp2 : p.2 = e := by simpa using h
    have hmem := List.mem_of_find?_eq_some hf
    rw [← hp1, ← hp2]
    exact hmem

/-- Attaching a fresh element whose id is not yet in the document makes it
findable by that id. -/
theorem getElementById_attach_append (st : St) (e : Elem) (hWF : WF st)
    (hnone : getElementById st e.id = none) :
    getElementById
      { st with nodes := st.nodes ++ [(st.nextNode, e)],
                doc := st.doc ++ [st.nextNode],
                nextNode := st.nextNode + 1 } e.id = some st.nextNode := by
  obtain ⟨h1, h2, h3, h4, h5⟩ := hWF
  unfold getElementById
  dsimp only
  rw [List.find?_append]
  have hfirst : st.doc.find? (idPred { st with nodes := st.nodes ++ [(st.nextNode, e)], doc := st.doc ++ [st.nextNode], nextNode := st.nextNode + 1 } e.id) = none := by
    rw [List.find?_eq_none]
    intro m hm
    unfold idPred
    have hlm : lookupNode { st with nodes := st.nodes ++ [(st.nextNode, e)], doc := st.doc ++ [st.nextNode], nextNode := st.nextNode + 1 } m =
        lookupNode st m :=
      nodesFind_append_ne st.nodes st.nextNode m e (Nat.ne_of_lt (h3 m hm))
    rw [hlm]
    have hne := (getElementById_eq_none st e.id).1 hnone m hm
    cases hx : lookupNode st m with
    | none => simp
    | some e' => simpa using hne e' hx
  rw [hfirst]
  have hlnew : lookupNode { st with nodes := st.nodes ++ [(st.nextNode, e)], doc := st.doc ++ [st.nextNode], nextNode := st.nextNode + 1 }
      st.nextNode = some e :=
    nodesFind_append_fresh st.nodes st.nextNode e
      (fun p hp => Nat.ne_of_lt (h1 p hp))
  have hpos : idPred { st with nodes := st.nodes ++ [(st.nextNode, e)], doc := st.doc ++ [st.nextNode], nextNode := st.nextNode + 1 } e.id st.nextNode = true := by
    unfold idPred
    rw [hlnew]
    simp
  rw [List.find?_cons_of_pos ([] : List NodeId) hpos]
  rfl

/-- Appending a fresh node to an iframe's content document makes an element
with that node's id findable inside the content document. -/
theorem contentGet_after_attach (st : St) (f' : NodeId) (e' : Elem)
    (eNew : Elem) (hWF1 : ∀ p ∈ st.nodes, p.1 < st.nextNode)
    (hlf : lookupNode st f' = some e') :
    ∃ m, contentGetById
      (updateNode
        { st with nodes := st.nodes ++ [(st.nextNode, eNew)],
                  nextNode := st.nextNode + 1 } f'
        (fun e => { e with contentDoc := e.contentDoc ++ [st.nextNode] }))
      f' eNew.id = some m := by
  have hmem := mem_of_lookupNode st f' e' hlf
  have hlt : f' < st.nextNode := hWF1 (f', e') hmem
  have hne : f' ≠ st.nextNode := Nat.ne_of_lt hlt
  have hlf1 : lookupNode { st with nodes := st.nodes ++ [(st.nextNode, eNew)], nextNode := st.nextNode + 1 } f' = some e' := by
    show nodesFind (st.nodes ++ [(st.nextNode, eNew)]) f' = some e'
    rw [nodesFind_append_ne st.nodes st.nextNode f' eNew hne]
    exact hlf
  have hlf2 : lookupNode (updateNode { st with
      nodes := st.nodes ++ [(st.nextNode, eNew)],
      nextNode := st.nextNode + 1 } f'
      (fun e => { e with contentDoc := e.contentDoc ++ [st.nextNode] })) f' =
      some { e' with contentDoc := e'.contentDoc ++ [st.nextNode] } := by
    rw [lookupNode_updateNode, if_pos rfl, hlf1]
    rfl
  have hlnew2 : lookupNode (updateNode { st with
      nodes := st.nodes ++ [(st.nextNode, eNew)],
      nextNode := st.nextNode + 1 } f'
      (fun e => { e with contentDoc := e.contentDoc ++ [st.nextNode] }))
      st.nextNode = some eNew := by
    rw [lookupNode_updateNode, if_neg (fun hc => hne hc.symm)]
    show nodesFind (st.nodes ++ [(st.nextNode, eNew)]) st.nextNode = some eNew
    exact nodesFind_append_fresh st.nodes st.nextNode eNew
      (fun p hp => Nat.ne_of_lt (hWF1 p hp))
  unfold contentGetById
  rw [hlf2]
  dsimp only
  have hsome : ((e'.contentDoc ++ [st.nextNode]).find?
      (idPred (updateNode { st with nodes := st.nodes ++ [(st.nextNode, eNew)], nextNode := st.nextNode + 1 } f'
        (fun e => { e with contentDoc := e.contentDoc ++ [st.nextNode] }))
        eNew.id)).isSome := by
    rw [List.find?_isSome]
    refine ⟨st.nextNode, List.mem_append_right _ (List.mem_singleton.2 rfl), ?_⟩
    unfold idPred
    rw [hlnew2]
    simp
  exact Option.isSome_iff_exists.1 hsome

/-- C7 counterexample: the isolated browsing context is NOT one per
document: prefetching a script and then a style from the empty document
leaves two distinct hidden context iframes attached to the same document,
one under the key `js-prefetch` and one under `css-prefetch`. -/
theorem C7_two_contexts_counterexample :
    getElementById stTwoPrefetch "js-prefetch" = some 0 ∧
    getElementById stTwoPrefetch "css-prefetch" = some 1 ∧
    (lookupNode stTwoPrefetch 0).map Elem.tag = some "iframe" ∧
    (lookupNode stTwoPrefetch 1).map Elem.tag = some "iframe" ∧
    0 ∈ stTwoPrefetch.doc ∧ 1 ∈ stTwoPrefetch.doc := by
  decide

/-- C7 as amended: `prefetch` with a valid type is a no-op when an element
with the derived Identity exists in the main document, and a no-op when one
exists inside the type's hidden isolated context; it ensures a single
shared hidden context per document AND RESOURCE TYPE, identified by the
fixed key `type + '-prefetch'` (at most one such element is ever attached,
and one exists afterwards when the fetch proceeds); the fetch itself is
only scheduled (trace untouched, main document unchanged except possibly
the context iframe itself), and running the deferred prefetch work touches
neither the main document nor the trace while placing an element bearing
the Identity inside the context (generic-engine path). -/
theorem C7_amended_prefetch (t u : String) (st : St) (hWF : WF st)
    (ht : t = "js" ∨ t = "css") :
    (∀ n, getElementById st (resourceId t u) = some n → prefetch t u st = st) ∧
    (∀ f, getElementById st (resourceId t u) = none →
      getElementById st (t ++ "-prefetch") = some f →
      ∀ m, contentGetById st f (resourceId t u) = some m →
        prefetch t u st = st) ∧
    countId (prefetch t u st) (t ++ "-prefetch") ≤ 1 ∧
    (prefetch t u st).trace = st.trace ∧
    ((prefetch t u st).doc = st.doc ∨
      (prefetch t u st).doc = st.doc ++ [st.nextNode]) ∧
    (∀ f, getElementById st (resourceId t u) = none →
      getElementById st (t ++ "-prefetch") = some f →
      contentGetById st f (resourceId t u) = none →
      (prefetch t u st).timeouts =
        st.timeouts ++ [Task.prefetchWork t u (resourceId t u) f]) ∧
    (getElementById st (resourceId t u) = none →
      getElementById st (t ++ "-prefetch") = none →
      (prefetch t u st).timeouts =
        st.timeouts ++ [Task.prefetchWork t u (resourceId t u) st.nextNode] ∧
      getElementById (prefetch t u st) (t ++ "-prefetch") = some st.nextNode) ∧
    (∀ ie f', (runPrefetchWork ie t u (resourceId t u) f' st).doc = st.doc ∧
      (runPrefetchWork ie t u (resourceId t u) f' st).trace = st.trace) ∧
    (∀ f' e', lookupNode st f' = some e' →
      ∃ m, contentGetById (runPrefetchWork false t u (resourceId t u) f' st)
        f' (resourceId t u) = some m) := by
  have hvalid : ¬(t ≠ "js" ∧ t ≠ "css") := by
    rcases ht with h | h <;> simp [h]
  refine ⟨?_, ?_, countId_le_one _ (WF_prefetch t u st hWF) _, ?_, ?_, ?_,
    ?_, ?_, ?_⟩
  · intro n hn
    unfold prefetch
    rw [if_neg hvalid]
    dsimp only
    rw [hn]
  · intro f hel hif m hm
    unfold prefetch
    rw [if_neg hvalid]
    dsimp only
    rw [hel]
    dsimp only
    rw [hif]
    dsimp only
    rw [hm]
  · unfold prefetch
    rw [if_neg hvalid]
    dsimp only
    rcases hel : getElementById st (resourceId t u) with _ | n <;> dsimp only
    rcases hif : getElementById st (t ++ "-prefetch") with _ | f <;> dsimp only
    · rfl
    · rcases hc : contentGetById st f (resourceId t u) with _ | m <;>
        dsimp only
  · unfold prefetch
    rw [if_neg hvalid]
    dsimp only
    rcases hel : getElementById st (resourceId t u) with _ | n <;> dsimp only
    · rcases hif : getElementById st (t ++ "-prefetch") with _ | f <;> dsimp only
      · right
        rfl
      · rcases hc : contentGetById st f (resourceId t u) with _ | m <;>
          dsimp only <;> exact Or.inl rfl
    · exact Or.inl rfl
  · intro f hel hif hc
    unfold prefetch
    rw [if_neg hvalid]
    dsimp only
    rw [hel]
    dsimp only
    rw [hif]
    dsimp only
    rw [hc]
  · intro hel hif
    unfold prefetch
    rw [if_neg hvalid]
    dsimp only
    rw [hel]
    dsimp only
    rw [hif]
    dsimp only
    unfold createIframe
    dsimp only
    refine ⟨rfl, ?_⟩
    exact getElementById_attach_append st _ hWF hif
  · intro ie f'
    rcases ht with rfl | rfl
    · unfold runPrefetchWork
      rw [if_pos rfl]
      cases ie <;> exact ⟨rfl, rfl⟩
    · unfold runPrefetchWork
      rw [if_neg (by decide)]
      unfold loadInternal
      rw [if_neg (by decide)]
      exact ⟨rfl, rfl⟩
  · intro f' e' hlf
    rcases ht with rfl | rfl
    · unfold runPrefetchWork
      rw [if_pos rfl]
      dsimp only
      rw [if_neg (show ¬ ((false : Bool) = true) by decide)]
      simp only [appendLastChild]
      exact contentGet_after_attach st f' e' _ hWF.1 hlf
    · unfold runPrefetchWork
      rw [if_neg (show ¬ ("css" = "js") by decide)]
      unfold loadInternal
      rw [if_neg (show ¬ ("css" ≠ "js" ∧ "css" ≠ "css") by decide)]
      dsimp only
      rw [if_neg (show ¬ ("css" = "js") by decide)]
      simp only [appendLastChild]
      exact contentGet_after_attach st f' e' _ hWF.1 hlf

/-- Witness for the amended C7: a script prefetch from the empty document
creates the `js-prefetch` context and schedules the fetch; running the
deferred work on the two-context state places the Identity element inside
the context without touching the main document or the trace. -/
theorem C7_amended_prefetch_witness :
    countId (prefetch "js" "a.js" St.init) ("js" ++ "-prefetch") ≤ 1 ∧
    (prefetch "js" "a.js" St.init).trace = St.init.trace ∧
    ((prefetch "js" "a.js" St.init).doc = St.init.doc ∨
      (prefetch "js" "a.js" St.init).doc = St.init.doc ++ [St.init.nextNode]) ∧
    (prefetch "js" "a.js" St.init).timeouts = St.init.timeouts ++
      [Task.prefetchWork "js" "a.js" (resourceId "js" "a.js") St.init.nextNode] ∧
    getElementById (prefetch "js" "a.js" St.init) ("js" ++ "-prefetch") =
      some St.init.nextNode ∧
    (runPrefetchWork false "js" "a.js" (resourceId "js" "a.js") 0
      stTwoPrefetch).doc = stTwoPrefetch.doc ∧
    (runPrefetchWork false "js" "a.js" (resourceId "js" "a.js") 0
      stTwoPrefetch).trace = stTwoPrefetch.trace ∧
    contentGetById (runPrefetchWork false "js" "a.js" (resourceId "js" "a.js")
      0 stTwoPrefetch) 0 (resourceId "js" "a.js") = some 2 := by
  have h1 := C7_amended_prefetch "js" "a.js" St.init WF_init (Or.inl rfl)
  have h2 := C7_amended_prefetch "js" "a.js" stTwoPrefetch (by decide)
    (Or.inl rfl)
  exact ⟨h1.2.2.1, h1.2.2.2.1, h1.2.2.2.2.1,
    (h1.2.2.2.2.2.2.1 (by decide) (by decide)).1,
    (h1.2.2.2.2.2.2.1 (by decide) (by decide)).2,
    (h2.2.2.2.2.2.2.2.1 false 0).1,
    (h2.2.2.2.2.2.2.2.1 false 0).2,
    by decide⟩

end SpfNetResources
